import Mathlib

/-!
Shallow embedding of the volk_gen code generator
(src/tools/volk_gen/volk_gen.cpp) and proofs about its data model,
machine-catalog expansion, kernel assembly, comment stripping and
template engine.  Each definition is translated from the C++ source;
the file then settles the specification claims as theorems.
-/

set_option maxHeartbeats 1000000

namespace VolkGen

/-! ## String utilities (volk_gen.cpp, lines 123-173)

C++ strings are modelled as Lean `String`/`List Char`.  `trim` uses the
character set " \t\r\n" exactly as `trim` in the source. -/

def isTrimWsChar (c : Char) : Bool :=
  c = ' ' || c = '\t' || c = '\r' || c = '\n'

/-- `trim` from the source: strip leading and trailing " \t\r\n". -/
def trimL (l : List Char) : List Char :=
  ((l.dropWhile isTrimWsChar).reverse.dropWhile isTrimWsChar).reverse

def trimStr (s : String) : String := String.mk (trimL s.data)

def toLowerStr (s : String) : String := String.mk (s.data.map Char.toLower)

def toUpperStr (s : String) : String := String.mk (s.data.map Char.toUpper)

/-- `split` from the source: split on a delimiter character, keeping
empty fields (`split("a||b",'|') = ["a","","b"]`, `split("",'|') = [""]`). -/
def splitOnCharL (c : Char) : List Char → List (List Char)
  | [] => [[]]
  | x :: xs =>
    if x = c then [] :: splitOnCharL c xs
    else
      match splitOnCharL c xs with
      | [] => [[x]]
      | h :: t => (x :: h) :: t

/-- `join` from the source: concatenate with a delimiter between fields. -/
def joinWith (sep : String) : List String → String
  | [] => ""
  | [x] => x
  | x :: y :: t => x ++ sep ++ joinWith sep (y :: t)

/-- Does `needle` occur as the first characters of `hay`? -/
def leadMatch : List Char → List Char → Bool
  | [], _ => true
  | _ :: _, [] => false
  | p :: ps, h :: hs => p = h && leadMatch ps hs

/-- `std::string::find` for a nonempty needle: index of the first
occurrence, `none` when absent. -/
def substrFind (needle : List Char) : List Char → Option Nat
  | [] => if leadMatch needle [] then some 0 else none
  | h :: t =>
    if leadMatch needle (h :: t) then some 0
    else (substrFind needle t).map (· + 1)

/-! ## Data model (volk_gen.cpp, lines 35-107)

`std::map` fields are modelled as association lists with distinct keys;
`std::set<std::string>` (`Impl.deps`) is modelled as the list of its
elements (only membership is used by the claims below). -/

structure Arch where
  name : String
  environment : String := ""
  /-- the C++ field `include` (renamed: `include` is a Lean keyword) -/
  include_path : String := ""
  alignment : Int := 1
  checks : List (String × List String) := []
  /-- compiler -> flags; `std::map` as an association list -/
  flags : List (String × List String) := []
deriving DecidableEq, Inhabited

/-- `Arch::is_supported`: true iff no flags are declared at all or the
compiler has an entry. -/
def Arch.is_supported (a : Arch) (compiler : String) : Bool :=
  a.flags.isEmpty || (a.flags.lookup compiler).isSome

/-- `Arch::get_flags`: the compiler's flag list, or empty. -/
def Arch.get_flags (a : Arch) (compiler : String) : List String :=
  match a.flags.lookup compiler with
  | some fl => fl
  | none => []

structure Machine where
  name : String
  arch_names : List String := []
  archs : List Arch := []
  alignment : Int := 1
deriving DecidableEq, Inhabited

structure Impl where
  name : String
  deps : List String := []
  args : List (String × String) := []
  is_aligned : Bool := false
deriving DecidableEq, Inhabited

structure Kernel where
  name : String
  pname : String := ""
  impls : List Impl := []
  args : List (String × String) := []
  arglist_types : String := ""
  arglist_full : String := ""
  arglist_names : String := ""
  has_dispatcher : Bool := false
deriving DecidableEq, Inhabited

/-- `Kernel::get_impls`: the implementations all of whose dependencies
are members of `arch_set`, in declaration order.  The C++ `std::set`
argument is modelled by the list of available names (only membership is
consulted). -/
def Kernel.get_impls (k : Kernel) (arch_set : List String) : List Impl :=
  k.impls.filter (fun impl => impl.deps.all (fun d => arch_set.contains d))

/-! ## Lookup lemmas for association lists -/

theorem lookup_cons_self {k : String} {v : List String} {t : List (String × List String)} :
    ((k, v) :: t).lookup k = some v := by
  rw [List.lookup_cons, beq_self_eq_true]

theorem lookup_cons_ne {k c : String} {v : List String} {t : List (String × List String)}
    (h : c ≠ k) : ((k, v) :: t).lookup c = t.lookup c := by
  rw [List.lookup_cons, beq_false_of_ne h]

theorem lookup_eq_none_iff (l : List (String × List String)) (c : String) :
    l.lookup c = none ↔ ∀ fl, (c, fl) ∉ l := by
  induction l with
  | nil => simp
  | cons p t ih =>
    obtain ⟨k, v⟩ := p
    by_cases h : c = k
    · subst h
      rw [lookup_cons_self]
      constructor
      · intro hx
        exact absurd hx (by simp)
      · intro hall
        exact absurd (List.mem_cons_self _ _) (hall v)
    · rw [lookup_cons_ne h]
      simp only [ih, List.mem_cons]
      constructor
      · intro hall fl hmem
        rcases hmem with heq | hmem
        · exact h (congrArg Prod.fst heq)
        · exact hall fl hmem
      · intro hall fl hmem
        exact hall fl (Or.inr hmem)

theorem lookup_eq_some_mem (l : List (String × List String)) (c : String)
    (fl : List String) (h : l.lookup c = some fl) : (c, fl) ∈ l := by
  induction l with
  | nil => simp at h
  | cons p t ih =>
    obtain ⟨k, v⟩ := p
    by_cases hk : c = k
    · subst hk
      rw [lookup_cons_self] at h
      cases h
      exact List.mem_cons_self _ _
    · rw [lookup_cons_ne hk] at h
      exact List.mem_cons_of_mem _ (ih h)

theorem mem_lookup_of_nodup (l : List (String × List String)) (c : String)
    (fl : List String) (hnd : (l.map Prod.fst).Nodup) (h : (c, fl) ∈ l) :
    l.lookup c = some fl := by
  induction l with
  | nil => simp at h
  | cons p t ih =>
    obtain ⟨k, v⟩ := p
    simp only [List.map_cons, List.nodup_cons] at hnd
    rcases List.mem_cons.mp h with heq | hmem
    · cases heq
      exact lookup_cons_self
    · have hck : c ≠ k := by
        intro hck
        subst hck
        exact hnd.1 (List.mem_map.mpr ⟨(c, fl), hmem, rfl⟩)
      rw [lookup_cons_ne hck]
      exact ih hnd.2 hmem

/-- C9: `is_supported(A, c)` holds iff `A.flags` is empty or has an entry
for compiler `c`; `get_flags(A, c)` is exactly the stored list when an
entry is present and the empty list otherwise. -/
theorem arch_supported_flags_spec (A : Arch) (c : String)
    (hnd : (A.flags.map Prod.fst).Nodup) :
    (A.is_supported c = true ↔ A.flags = [] ∨ ∃ fl, (c, fl) ∈ A.flags)
    ∧ (∀ fl, (c, fl) ∈ A.flags → A.get_flags c = fl)
    ∧ ((∀ fl, (c, fl) ∉ A.flags) → A.get_flags c = []) := by
  refine ⟨?_, ?_, ?_⟩
  · unfold Arch.is_supported
    constructor
    · intro h
      rcases Bool.or_eq_true_iff.mp h with he | hs
      · exact Or.inl (List.isEmpty_iff.mp he)
      · rcases Option.isSome_iff_exists.mp hs with ⟨fl, hfl⟩
        exact Or.inr ⟨fl, lookup_eq_some_mem _ _ _ hfl⟩
    · intro h
      rcases h with he | ⟨fl, hfl⟩
      · simp [he]
      · have : A.flags.lookup c = some fl := mem_lookup_of_nodup _ _ _ hnd hfl
        simp [this]
  · intro fl hfl
    unfold Arch.get_flags
    rw [mem_lookup_of_nodup _ _ _ hnd hfl]
  · intro hall
    unfold Arch.get_flags
    rw [(lookup_eq_none_iff _ _).mpr hall]

/-- Witness for `arch_supported_flags_spec` at a concrete architecture. -/
theorem arch_supported_flags_spec_witness :
    ((({ name := "sse", flags := [("gnu", ["-msse"])] } : Arch).is_supported "gnu" = true
      ↔ ({ name := "sse", flags := [("gnu", ["-msse"])] } : Arch).flags = []
        ∨ ∃ fl, ("gnu", fl) ∈ ({ name := "sse", flags := [("gnu", ["-msse"])] } : Arch).flags)
    ∧ (∀ fl, ("gnu", fl) ∈ ({ name := "sse", flags := [("gnu", ["-msse"])] } : Arch).flags →
        ({ name := "sse", flags := [("gnu", ["-msse"])] } : Arch).get_flags "gnu" = fl)
    ∧ ((∀ fl, ("gnu", fl) ∉ ({ name := "sse", flags := [("gnu", ["-msse"])] } : Arch).flags) →
        ({ name := "sse", flags := [("gnu", ["-msse"])] } : Arch).get_flags "gnu" = [])) :=
  arch_supported_flags_spec { name := "sse", flags := [("gnu", ["-msse"])] } "gnu" (by decide)

/-- C2: `get_impls` returns exactly the implementations whose dependency
set is contained in `S`, in declaration order (it is the filter of
`impls` by the subset predicate, hence a sublist), and an implementation
with no dependencies is returned for every `S`. -/
theorem get_impls_spec (K : Kernel) (S : List String) :
    K.get_impls S = K.impls.filter (fun i => decide (∀ d ∈ i.deps, d ∈ S))
    ∧ List.Sublist (K.get_impls S) K.impls
    ∧ (∀ i ∈ K.impls, i.deps = [] → i ∈ K.get_impls S) := by
  have hpt : ∀ i : Impl,
      (i.deps.all (fun d => S.contains d)) = decide (∀ d ∈ i.deps, d ∈ S) := by
    intro i
    by_cases h : ∀ d ∈ i.deps, d ∈ S
    · simp only [decide_eq_true h]
      exact List.all_eq_true.mpr (fun d hd => by
        simpa [List.contains, List.elem_iff] using h d hd)
    · simp only [decide_eq_false h]
      rw [Bool.eq_false_iff]
      intro hall
      exact h (fun d hd => by
        have := List.all_eq_true.mp hall d hd
        simpa [List.contains, List.elem_iff] using this)
  refine ⟨?_, ?_, ?_⟩
  · unfold Kernel.get_impls
    exact List.filter_congr (fun i _ => hpt i)
  · exact List.filter_sublist _
  · intro i hi hdeps
    unfold Kernel.get_impls
    refine List.mem_filter.mpr ⟨hi, ?_⟩
    simp [hdeps]

/-- Witness for `get_impls_spec` at a concrete kernel and arch set. -/
theorem get_impls_spec_witness :
    (({ name := "volk_k", impls := [{ name := "generic" }, { name := "sse", deps := ["sse"] }] } : Kernel).get_impls ["avx"]
      = ({ name := "volk_k", impls := [{ name := "generic" }, { name := "sse", deps := ["sse"] }] } : Kernel).impls.filter
          (fun i => decide (∀ d ∈ i.deps, d ∈ ["avx"]))
    ∧ List.Sublist
        (({ name := "volk_k", impls := [{ name := "generic" }, { name := "sse", deps := ["sse"] }] } : Kernel).get_impls ["avx"])
        ({ name := "volk_k", impls := [{ name := "generic" }, { name := "sse", deps := ["sse"] }] } : Kernel).impls
    ∧ (∀ i ∈ ({ name := "volk_k", impls := [{ name := "generic" }, { name := "sse", deps := ["sse"] }] } : Kernel).impls,
        i.deps = [] →
        i ∈ ({ name := "volk_k", impls := [{ name := "generic" }, { name := "sse", deps := ["sse"] }] } : Kernel).get_impls ["avx"])) :=
  get_impls_spec { name := "volk_k", impls := [{ name := "generic" }, { name := "sse", deps := ["sse"] }] } ["avx"]

/-! ## Machine registration (volk_gen.cpp, lines 347-398)

`register_machine` scans the entry list for the first entry containing
`'|'` (the C++ `for` loop returns inside the `if`), splits that entry on
`'|'`, and recurses once per alternative; an empty alternative omits the
entry, a non-empty one substitutes it and suffixes the machine name.
With no `'|'` left, the machine is resolved and validated. -/

def hasPipe (s : String) : Bool := s.data.contains '|'

def pipeCountL (l : List String) : Nat := (l.map (fun s => s.data.count '|')).sum

/-- First entry containing `'|'`, with the entries before and after it. -/
def splitAtPipe : List String → Option (List String × String × List String)
  | [] => none
  | a :: rest =>
    if hasPipe a then some ([], a, rest)
    else (splitAtPipe rest).map (fun x => (a :: x.1, x.2.1, x.2.2))

/-- `g_arch_dict` lookup: the map is built in catalog order with later
entries overwriting earlier ones, so the last match wins. -/
def findArch (dict : List Arch) (n : String) : Option Arch :=
  dict.reverse.find? (fun a => a.name == n)

/-- The resolution loop of `register_machine`: empty names are skipped,
an unknown name invalidates the machine (`none`). -/
def resolveArchs (dict : List Arch) : List String → Option (List String × List Arch)
  | [] => some ([], [])
  | n :: rest =>
    if n = "" then resolveArchs dict rest
    else
      match findArch dict n with
      | some a => (resolveArchs dict rest).map (fun x => (n :: x.1, a :: x.2))
      | none => none

/-- The pipe-free tail of `register_machine`: resolve the names, drop the
machine if any name is unknown or no architecture remains, otherwise
record it with alignment `foldl max 1`. -/
def mkMachine (dict : List Arch) (name : String) (archs : List String) : List Machine :=
  match resolveArchs dict archs with
  | none => []
  | some (ns, resolved) =>
    if resolved.isEmpty then []
    else
      [{ name := name, arch_names := ns, archs := resolved,
         alignment := resolved.foldl (fun m a => max m a.alignment) 1 }]

theorem splitOnCharL_not_mem (c : Char) :
    ∀ (s : List Char), ∀ pl ∈ splitOnCharL c s, c ∉ pl
  | [], pl, hpl => by
    simp only [splitOnCharL, List.mem_singleton] at hpl
    subst hpl
    simp
  | x :: xs, pl, hpl => by
    unfold splitOnCharL at hpl
    by_cases hx : x = c
    · rw [if_pos hx] at hpl
      rcases List.mem_cons.mp hpl with h | h
      · subst h
        simp
      · exact splitOnCharL_not_mem c xs pl h
    · rw [if_neg hx] at hpl
      cases hrec : splitOnCharL c xs with
      | nil =>
        rw [hrec] at hpl
        simp only [List.mem_singleton] at hpl
        subst hpl
        intro hmem
        rcases List.mem_singleton.mp hmem with h'
        exact hx h'.symm
      | cons hd tl =>
        rw [hrec] at hpl
        rcases List.mem_cons.mp hpl with h | h
        · subst h
          intro hmem
          rcases List.mem_cons.mp hmem with h' | h'
          · exact hx h'.symm
          · have : c ∉ hd := splitOnCharL_not_mem c xs hd (by rw [hrec]; exact List.mem_cons_self _ _)
            exact this h'
        · exact splitOnCharL_not_mem c xs pl (by rw [hrec]; exact List.mem_cons_of_mem _ h)

theorem splitAtPipe_eq :
    ∀ (l pre : List String) (e : String) (post : List String),
      splitAtPipe l = some (pre, e, post) → l = pre ++ e :: post ∧ hasPipe e = true
  | [], pre, e, post, h => by simp [splitAtPipe] at h
  | a :: rest, pre, e, post, h => by
    unfold splitAtPipe at h
    by_cases hp : hasPipe a
    · rw [if_pos hp] at h
      simp only [Option.some.injEq, Prod.mk.injEq] at h
      obtain ⟨h1, h2, h3⟩ := h
      subst h1; subst h2; subst h3
      exact ⟨rfl, hp⟩
    · rw [if_neg hp] at h
      cases hsp : splitAtPipe rest with
      | none => rw [hsp] at h; simp at h
      | some x =>
        rw [hsp] at h
        simp only [Option.map_some', Option.some.injEq, Prod.mk.injEq] at h
        obtain ⟨h1, h2, h3⟩ := h
        obtain ⟨hrest, hpipe⟩ := splitAtPipe_eq rest x.1 x.2.1 x.2.2 (by rw [hsp])
        subst h2; subst h3
        refine ⟨?_, hpipe⟩
        rw [← h1, hrest]
        simp

theorem pipeCountL_append (a b : List String) :
    pipeCountL (a ++ b) = pipeCountL a + pipeCountL b := by
  simp [pipeCountL]

theorem hasPipe_count_pos {s : String} (h : hasPipe s = true) : 0 < s.data.count '|' := by
  rw [List.count_pos_iff]
  exact List.elem_iff.mp h

def register_machine (dict : List Arch) (name : String) (archs : List String) : List Machine :=
  match hs : splitAtPipe archs with
  | none => mkMachine dict name archs
  | some (pre, entry, post) =>
    ((splitOnCharL '|' entry.data).attach.map (fun part =>
      if part.1 = [] then
        register_machine dict name (pre ++ post)
      else
        register_machine dict (name ++ "_" ++ String.mk part.1)
          (pre ++ [String.mk part.1] ++ post))).flatten
termination_by pipeCountL archs
decreasing_by
  · obtain ⟨harchs, hpipe⟩ := splitAtPipe_eq _ _ _ _ hs
    subst harchs
    rw [pipeCountL_append, pipeCountL_append]
    have hpos : 0 < entry.data.count '|' := hasPipe_count_pos hpipe
    have : pipeCountL (entry :: post) = entry.data.count '|' + pipeCountL post := by
      simp [pipeCountL]
    omega
  · obtain ⟨harchs, hpipe⟩ := splitAtPipe_eq _ _ _ _ hs
    subst harchs
    have hnp : '|' ∉ part.1 := splitOnCharL_not_mem '|' entry.data part.1 part.2
    have hzero : (String.mk part.1).data.count '|' = 0 := List.count_eq_zero.mpr hnp
    rw [pipeCountL_append, pipeCountL_append, pipeCountL_append]
    have h1 : pipeCountL [String.mk part.1] = 0 := by
      simp [pipeCountL, hzero]
    have h2 : pipeCountL (entry :: post) = entry.data.count '|' + pipeCountL post := by
      simp [pipeCountL]
    have hpos : 0 < entry.data.count '|' := hasPipe_count_pos hpipe
    omega

/-! ## Lemmas about machine registration -/

theorem string_mk_data (s : String) : String.mk s.data = s := by
  cases s
  rfl

theorem data_ne_nil_of_ne_empty {s : String} (h : s ≠ "") : s.data ≠ [] := by
  intro hd
  apply h
  cases s
  rename_i data
  have hd2 : data = [] := hd
  rw [hd2]

theorem not_pipe_mem_of_hasPipe_false {s : String} (h : hasPipe s = false) :
    '|' ∉ s.data := by
  intro hm
  unfold hasPipe at h
  simp [List.contains, List.elem_eq_mem, hm] at h

theorem findArch_mem {dict : List Arch} {n : String} {a : Arch}
    (h : findArch dict n = some a) : a ∈ dict := by
  unfold findArch at h
  have := List.mem_of_find?_eq_some h
  exact List.mem_reverse.mp this

theorem resolveArchs_mem {dict : List Arch} :
    ∀ {l : List String} {ns : List String} {rs : List Arch},
      resolveArchs dict l = some (ns, rs) → ∀ a ∈ rs, a ∈ dict := by
  intro l
  induction l with
  | nil =>
    intro ns rs h a ha
    simp only [resolveArchs, Option.some.injEq, Prod.mk.injEq] at h
    rw [← h.2] at ha
    simp at ha
  | cons n rest ih =>
    intro ns rs h a ha
    unfold resolveArchs at h
    by_cases hn : n = ""
    · rw [if_pos hn] at h
      exact ih h a ha
    · rw [if_neg hn] at h
      cases hf : findArch dict n with
      | none => rw [hf] at h; simp at h
      | some a0 =>
        rw [hf] at h
        cases hr : resolveArchs dict rest with
        | none => rw [hr] at h; simp at h
        | some x =>
          rw [hr] at h
          simp only [Option.map_some', Option.some.injEq, Prod.mk.injEq] at h
          rw [← h.2] at ha
          rcases List.mem_cons.mp ha with he | hm
          · subst he
            exact findArch_mem hf
          · exact ih (by rw [hr]) a hm

theorem resolveArchs_none_of_unknown {dict : List Arch} :
    ∀ {l : List String}, (∃ n ∈ l, n ≠ "" ∧ findArch dict n = none) →
      resolveArchs dict l = none := by
  intro l
  induction l with
  | nil => intro h; simp at h
  | cons m rest ih =>
    intro h
    obtain ⟨n, hn, hne, hnf⟩ := h
    unfold resolveArchs
    rcases List.mem_cons.mp hn with he | hm
    · subst he
      rw [if_neg hne, hnf]
    · by_cases hm0 : m = ""
      · rw [if_pos hm0]
        exact ih ⟨n, hm, hne, hnf⟩
      · rw [if_neg hm0]
        cases hf : findArch dict m with
        | none => rfl
        | some a0 =>
          rw [ih ⟨n, hm, hne, hnf⟩]
          rfl

theorem resolveArchs_all_empty {dict : List Arch} :
    ∀ {l : List String}, (∀ n ∈ l, n = "") → resolveArchs dict l = some ([], []) := by
  intro l
  induction l with
  | nil => intro _; rfl
  | cons m rest ih =>
    intro h
    unfold resolveArchs
    rw [if_pos (h m (List.mem_cons_self _ _))]
    exact ih (fun n hn => h n (List.mem_cons_of_mem _ hn))

/-! Fold-max lemmas, for the machine-alignment computation. -/

theorem le_foldl_max_init : ∀ (l : List Int) (i : Int), i ≤ l.foldl max i
  | [], _ => le_refl _
  | a :: l, i => le_trans (le_max_left i a) (le_foldl_max_init l (max i a))

theorem le_foldl_max_mem : ∀ (l : List Int) (i x : Int), x ∈ l → x ≤ l.foldl max i
  | [], _, _, hx => absurd hx (List.not_mem_nil _)
  | a :: l, i, x, hx => by
    rw [List.foldl_cons]
    rcases List.mem_cons.mp hx with he | hm2
    · subst he
      exact le_trans (le_max_right i x) (le_foldl_max_init l (max i x))
    · exact le_foldl_max_mem l (max i a) x hm2

theorem foldl_max_mem : ∀ (l : List Int) (i : Int), l.foldl max i = i ∨ l.foldl max i ∈ l
  | [], _ => Or.inl rfl
  | a :: l, i => by
    rw [List.foldl_cons]
    rcases foldl_max_mem l (max i a) with he | hm
    · rw [he]
      rcases max_choice i a with h | h
      · exact Or.inl h
      · rw [h]
        exact Or.inr (List.mem_cons_self _ _)
    · exact Or.inr (List.mem_cons_of_mem _ hm)

theorem mkMachine_mem_spec {dict : List Arch} {nm : String} {l : List String} {M : Machine}
    (hal : ∀ a ∈ dict, 1 ≤ a.alignment) (h : M ∈ mkMachine dict nm l) :
    (∃ a ∈ M.archs, M.alignment = a.alignment) ∧ ∀ a ∈ M.archs, a.alignment ≤ M.alignment := by
  unfold mkMachine at h
  split at h
  · simp at h
  · rename_i ns rs hr
    split at h
    · simp at h
    · rename_i hre
      rcases List.mem_singleton.mp h with rfl
      have hrs : rs ≠ [] := by
        intro hx
        rw [hx] at hre
        exact hre rfl
      have hin : ∀ a ∈ rs, a ∈ dict := resolveArchs_mem hr
      have hfold : rs.foldl (fun m a => max m a.alignment) 1
          = (rs.map (fun a => a.alignment)).foldl max 1 := by
        rw [List.foldl_map]
      constructor
      · simp only [hfold]
        rcases foldl_max_mem (rs.map (fun a => a.alignment)) 1 with he | hm
        · rw [he]
          obtain ⟨a0, ha0⟩ := List.exists_mem_of_ne_nil rs hrs
          refine ⟨a0, ha0, ?_⟩
          have h1 : a0.alignment ≤ 1 := by
            have := le_foldl_max_mem (rs.map (fun a => a.alignment)) 1 a0.alignment
              (List.mem_map.mpr ⟨a0, ha0, rfl⟩)
            rw [he] at this
            exact this
          have h2 : 1 ≤ a0.alignment := hal a0 (hin a0 ha0)
          omega
        · obtain ⟨a0, ha0, hea⟩ := List.mem_map.mp hm
          exact ⟨a0, ha0, hea.symm⟩
      · intro a ha
        simp only [hfold]
        exact le_foldl_max_mem _ 1 _ (List.mem_map.mpr ⟨a, ha, rfl⟩)

theorem register_machine_mem_aux {dict : List Arch} :
    ∀ (n : Nat) (archs : List String), pipeCountL archs = n →
      ∀ (name : String) (M : Machine),
        M ∈ register_machine dict name archs → ∃ nm l, M ∈ mkMachine dict nm l := by
  intro n0
  induction n0 using Nat.strong_induction_on with
  | _ n ih =>
    intro archs hn name M h
    rw [register_machine] at h
    split at h
    · exact ⟨name, archs, h⟩
    · rename_i pre entry post hs
      rw [List.mem_flatten] at h
      obtain ⟨sub, hsub, hM⟩ := h
      rw [List.mem_map] at hsub
      obtain ⟨part, hpart, hsubeq⟩ := hsub
      obtain ⟨harchs, hpipe⟩ := splitAtPipe_eq _ _ _ _ hs
      have hdec : ∀ x : List Char, '|' ∉ x →
          pipeCountL (pre ++ [String.mk x] ++ post) < n := by
        intro x hx
        subst harchs
        rw [← hn]
        simp only [pipeCountL_append]
        have h2 : pipeCountL (entry :: post) = entry.data.count '|' + pipeCountL post := by
          simp [pipeCountL]
        have h1 : pipeCountL [String.mk x] = 0 := by
          simp [pipeCountL, List.count_eq_zero.mpr hx]
        have hpos : 0 < entry.data.count '|' := hasPipe_count_pos hpipe
        omega
      have hdec0 : pipeCountL (pre ++ post) < n := by
        subst harchs
        rw [← hn]
        simp only [pipeCountL_append]
        have h2 : pipeCountL (entry :: post) = entry.data.count '|' + pipeCountL post := by
          simp [pipeCountL]
        have hpos : 0 < entry.data.count '|' := hasPipe_count_pos hpipe
        omega
      by_cases hpe : part.1 = []
      · rw [if_pos hpe] at hsubeq
        rw [← hsubeq] at hM
        exact ih _ hdec0 _ rfl name M hM
      · rw [if_neg hpe] at hsubeq
        rw [← hsubeq] at hM
        have hx : '|' ∉ part.1 := splitOnCharL_not_mem '|' entry.data part.1 part.2
        exact ih _ (hdec part.1 hx) _ rfl _ M hM

theorem register_machine_mem {dict : List Arch} (archs : List String) (name : String)
    (M : Machine) (h : M ∈ register_machine dict name archs) :
    ∃ nm l, M ∈ mkMachine dict nm l :=
  register_machine_mem_aux (pipeCountL archs) archs rfl name M h

/-- C4: every machine in the catalog has alignment equal to the maximum
alignment of its architectures (under the data-model invariant that all
architecture alignments are at least the default 1); and a fully-expanded
machine referencing an unknown architecture name, or expanding to zero
architectures, is silently dropped. -/
theorem machine_alignment_and_validation (dict : List Arch) (name : String)
    (archs : List String) (hal : ∀ a ∈ dict, 1 ≤ a.alignment) :
    (∀ M ∈ register_machine dict name archs,
        (∃ a ∈ M.archs, M.alignment = a.alignment)
        ∧ ∀ a ∈ M.archs, a.alignment ≤ M.alignment)
    ∧ (∀ (nm : String) (l : List String),
        ((∃ n ∈ l, n ≠ "" ∧ findArch dict n = none) ∨ (∀ n ∈ l, n = "")) →
        mkMachine dict nm l = []) := by
  constructor
  · intro M hM
    obtain ⟨nm, l, hml⟩ := register_machine_mem archs name M hM
    exact mkMachine_mem_spec hal hml
  · intro nm l hl
    rcases hl with hunk | hemp
    · unfold mkMachine
      rw [resolveArchs_none_of_unknown hunk]
    · unfold mkMachine
      rw [resolveArchs_all_empty hemp]
      rfl

/-- Witness for `machine_alignment_and_validation` at a concrete catalog. -/
theorem machine_alignment_and_validation_witness :
    (∀ a ∈ [({ name := "sse", alignment := 16 } : Arch)], 1 ≤ a.alignment)
    ∧ ((∀ M ∈ register_machine [({ name := "sse", alignment := 16 } : Arch)] "m" ["sse"],
          (∃ a ∈ M.archs, M.alignment = a.alignment)
          ∧ ∀ a ∈ M.archs, a.alignment ≤ M.alignment)
      ∧ (∀ (nm : String) (l : List String),
          ((∃ n ∈ l, n ≠ "" ∧ findArch [({ name := "sse", alignment := 16 } : Arch)] n = none)
            ∨ (∀ n ∈ l, n = "")) →
          mkMachine [({ name := "sse", alignment := 16 } : Arch)] nm l = [])) :=
  ⟨by decide,
   machine_alignment_and_validation [{ name := "sse", alignment := 16 }] "m" ["sse"] (by decide)⟩

/-! ## Unfold lemmas and the alternation-expansion claim -/

theorem hasPipe_iff {s : String} : hasPipe s = true ↔ '|' ∈ s.data :=
  List.elem_iff

theorem register_machine_eq_of_nosplit {dict : List Arch} {name : String}
    {archs : List String} (hs : splitAtPipe archs = none) :
    register_machine dict name archs = mkMachine dict name archs := by
  rw [register_machine]
  split
  · rfl
  · rename_i pre entry post h0
    rw [h0] at hs
    cases hs

theorem register_machine_eq_of_split {dict : List Arch} {name : String}
    {archs pre : List String} {entry : String} {post : List String}
    (hs : splitAtPipe archs = some (pre, entry, post)) :
    register_machine dict name archs =
      ((splitOnCharL '|' entry.data).map (fun pl =>
        if pl = [] then register_machine dict name (pre ++ post)
        else register_machine dict (name ++ "_" ++ String.mk pl)
          (pre ++ [String.mk pl] ++ post))).flatten := by
  rw [register_machine]
  split
  · rename_i h0
    rw [h0] at hs
    cases hs
  · rename_i pre2 entry2 post2 h0
    rw [h0] at hs
    simp only [Option.some.injEq, Prod.mk.injEq] at hs
    obtain ⟨h1, h2, h3⟩ := hs
    subst h1
    subst h2
    subst h3
    refine congrArg List.flatten ?_
    exact List.attach_map_val (splitOnCharL '|' entry2.data)
      (fun pl =>
        if pl = [] then register_machine dict name (pre2 ++ post2)
        else register_machine dict (name ++ "_" ++ String.mk pl)
          (pre2 ++ [String.mk pl] ++ post2))

theorem splitAtPipe_cons_nopipe {a : String} {rest : List String}
    (h : hasPipe a = false) :
    splitAtPipe (a :: rest)
      = (splitAtPipe rest).map (fun x => (a :: x.1, x.2.1, x.2.2)) := by
  rw [splitAtPipe, h]
  rfl

theorem splitAtPipe_cons_pipe {a : String} {rest : List String}
    (h : hasPipe a = true) : splitAtPipe (a :: rest) = some ([], a, rest) := by
  rw [splitAtPipe, h]
  rfl

theorem splitAtPipe_none_of_all {l : List String}
    (h : ∀ s ∈ l, hasPipe s = false) : splitAtPipe l = none := by
  induction l with
  | nil => rfl
  | cons a rest ih =>
    rw [splitAtPipe_cons_nopipe (h a (List.mem_cons_self _ _))]
    rw [ih (fun s hs => h s (List.mem_cons_of_mem _ hs))]
    rfl

theorem splitOnCharL_no_delim {c : Char} :
    ∀ {a : List Char}, c ∉ a → splitOnCharL c a = [a] := by
  intro a
  induction a with
  | nil => intro _; rfl
  | cons x xs ih =>
    intro h
    have hx : ¬x = c := fun he => h (he ▸ List.mem_cons_self _ _)
    have hrest : c ∉ xs := fun hm => h (List.mem_cons_of_mem _ hm)
    unfold splitOnCharL
    rw [if_neg hx, ih hrest]

theorem splitOnCharL_append_delim {c : Char} :
    ∀ {a b : List Char}, c ∉ a →
      splitOnCharL c (a ++ c :: b) = a :: splitOnCharL c b := by
  intro a
  induction a with
  | nil =>
    intro b _
    simp only [List.nil_append]
    rw [splitOnCharL, if_pos rfl]
  | cons x xs ih =>
    intro b h
    have hx : ¬x = c := fun he => h (he ▸ List.mem_cons_self _ _)
    have hrest : c ∉ xs := fun hm => h (List.mem_cons_of_mem _ hm)
    show splitOnCharL c (x :: (xs ++ c :: b)) = (x :: xs) :: splitOnCharL c b
    rw [splitOnCharL, if_neg hx, ih hrest]

theorem resolveArchs_cons_known {dict : List Arch} {n : String} {a : Arch}
    (rest : List String) (hne : n ≠ "") (hf : findArch dict n = some a) :
    resolveArchs dict (n :: rest)
      = (resolveArchs dict rest).map (fun x => (n :: x.1, a :: x.2)) := by
  rw [resolveArchs, if_neg hne, hf]

/-- C3: registering machine `B` with entries `[x, p|q, y]` (all naming
known, pipe-free architectures) yields exactly the machines `B_p` over
`[x, p, y]` and `B_q` over `[x, q, y]`; with an empty alternative
(`[x, p|, y]`) the second branch keeps the base name and omits the entry
(`B` over `[x, y]`). -/
theorem machine_alternation_expansion (dict : List Arch) (B nx np nq ny : String)
    (ax ap aq ay : Arch)
    (hnx : hasPipe nx = false) (hny : hasPipe ny = false)
    (hnp : hasPipe np = false) (hnq : hasPipe nq = false)
    (hnxe : nx ≠ "") (hnye : ny ≠ "") (hnpe : np ≠ "") (hnqe : nq ≠ "")
    (hfx : findArch dict nx = some ax) (hfp : findArch dict np = some ap)
    (hfq : findArch dict nq = some aq) (hfy : findArch dict ny = some ay) :
    register_machine dict B [nx, np ++ "|" ++ nq, ny]
      = [ { name := B ++ "_" ++ np, arch_names := [nx, np, ny], archs := [ax, ap, ay],
            alignment := max (max (max 1 ax.alignment) ap.alignment) ay.alignment },
          { name := B ++ "_" ++ nq, arch_names := [nx, nq, ny], archs := [ax, aq, ay],
            alignment := max (max (max 1 ax.alignment) aq.alignment) ay.alignment } ]
    ∧ register_machine dict B [nx, np ++ "|", ny]
      = [ { name := B ++ "_" ++ np, arch_names := [nx, np, ny], archs := [ax, ap, ay],
            alignment := max (max (max 1 ax.alignment) ap.alignment) ay.alignment },
          { name := B, arch_names := [nx, ny], archs := [ax, ay],
            alignment := max (max 1 ax.alignment) ay.alignment } ] := by
  have hnpd : '|' ∉ np.data := not_pipe_mem_of_hasPipe_false hnp
  have hnqd : '|' ∉ nq.data := not_pipe_mem_of_hasPipe_false hnq
  have hmk3 : ∀ (m : String) (a1 a2 a3 : String) (b1 b2 b3 : Arch),
      a1 ≠ "" → a2 ≠ "" → a3 ≠ "" →
      findArch dict a1 = some b1 → findArch dict a2 = some b2 →
      findArch dict a3 = some b3 →
      mkMachine dict m [a1, a2, a3]
        = [{ name := m, arch_names := [a1, a2, a3], archs := [b1, b2, b3],
             alignment := max (max (max 1 b1.alignment) b2.alignment) b3.alignment }] := by
    intro m a1 a2 a3 b1 b2 b3 h1 h2 h3 hf1 hf2 hf3
    unfold mkMachine
    rw [resolveArchs_cons_known _ h1 hf1, resolveArchs_cons_known _ h2 hf2,
      resolveArchs_cons_known _ h3 hf3]
    rfl
  have hmk2 : ∀ (m : String) (a1 a3 : String) (b1 b3 : Arch),
      a1 ≠ "" → a3 ≠ "" →
      findArch dict a1 = some b1 → findArch dict a3 = some b3 →
      mkMachine dict m [a1, a3]
        = [{ name := m, arch_names := [a1, a3], archs := [b1, b3],
             alignment := max (max 1 b1.alignment) b3.alignment }] := by
    intro m a1 a3 b1 b3 h1 h3 hf1 hf3
    unfold mkMachine
    rw [resolveArchs_cons_known _ h1 hf1, resolveArchs_cons_known _ h3 hf3]
    rfl
  have hreg3 : ∀ (m : String) (a2 : String) (b2 : Arch), a2 ≠ "" → hasPipe a2 = false →
      findArch dict a2 = some b2 →
      register_machine dict m [nx, a2, ny]
        = [{ name := m, arch_names := [nx, a2, ny], archs := [ax, b2, ay],
             alignment := max (max (max 1 ax.alignment) b2.alignment) ay.alignment }] := by
    intro m a2 b2 h2 hp2 hf2
    rw [register_machine_eq_of_nosplit (splitAtPipe_none_of_all (by
      intro s hs
      rcases List.mem_cons.mp hs with h | h
      · subst h; exact hnx
      rcases List.mem_cons.mp h with h | h
      · subst h; exact hp2
      rcases List.mem_cons.mp h with h | h
      · subst h; exact hny
      · simp at h))]
    exact hmk3 m nx a2 ny ax b2 ay hnxe h2 hnye hfx hf2 hfy
  constructor
  · have hd : (np ++ "|" ++ nq).data = np.data ++ '|' :: nq.data := by
      rw [String.data_append, String.data_append, List.append_assoc]
      rfl
    have hpipe2 : hasPipe (np ++ "|" ++ nq) = true := by
      rw [hasPipe_iff, hd]
      exact List.mem_append_right _ (List.mem_cons_self _ _)
    have hsp : splitAtPipe [nx, np ++ "|" ++ nq, ny]
        = some ([nx], np ++ "|" ++ nq, [ny]) := by
      rw [splitAtPipe_cons_nopipe hnx, splitAtPipe_cons_pipe hpipe2]
      rfl
    rw [register_machine_eq_of_split hsp]
    rw [hd, splitOnCharL_append_delim hnpd, splitOnCharL_no_delim hnqd]
    have hnp0 : np.data ≠ [] := data_ne_nil_of_ne_empty hnpe
    have hnq0 : nq.data ≠ [] := data_ne_nil_of_ne_empty hnqe
    simp only [List.map_cons, List.map_nil, List.flatten_cons, List.flatten_nil,
      if_neg hnp0, if_neg hnq0, string_mk_data, List.cons_append, List.nil_append,
      List.append_nil]
    rw [hreg3 _ np ap hnpe hnp hfp, hreg3 _ nq aq hnqe hnq hfq]
    rfl
  · have hd : (np ++ "|").data = np.data ++ '|' :: [] := by
      rw [String.data_append]
    have hpipe2 : hasPipe (np ++ "|") = true := by
      rw [hasPipe_iff, hd]
      exact List.mem_append_right _ (List.mem_cons_self _ _)
    have hsp : splitAtPipe [nx, np ++ "|", ny]
        = some ([nx], np ++ "|", [ny]) := by
      rw [splitAtPipe_cons_nopipe hnx, splitAtPipe_cons_pipe hpipe2]
      rfl
    rw [register_machine_eq_of_split hsp]
    rw [hd, splitOnCharL_append_delim hnpd]
    have hnp0 : np.data ≠ [] := data_ne_nil_of_ne_empty hnpe
    have hif : ∀ (X Y : List Machine), (if ([] : List Char) = [] then X else Y) = X :=
      fun X Y => if_pos rfl
    simp only [splitOnCharL, List.map_cons, List.map_nil, List.flatten_cons,
      List.flatten_nil, if_neg hnp0, hif, string_mk_data, List.cons_append,
      List.nil_append, List.append_nil]
    rw [hreg3 _ np ap hnpe hnp hfp]
    rw [register_machine_eq_of_nosplit (splitAtPipe_none_of_all (by
      intro s hs
      rcases List.mem_cons.mp hs with h | h
      · subst h; exact hnx
      rcases List.mem_cons.mp h with h | h
      · subst h; exact hny
      · simp at h))]
    rw [hmk2 B nx ny ax ay hnxe hnye hfx hfy]
    rfl

/-- Witness for `machine_alternation_expansion` at a concrete catalog. -/
theorem machine_alternation_expansion_witness :
    register_machine [{ name := "x" }, { name := "p" }, { name := "q" }, { name := "y" }]
        "m" ["x", "p" ++ "|" ++ "q", "y"]
      = [ { name := "m" ++ "_" ++ "p", arch_names := ["x", "p", "y"],
            archs := [{ name := "x" }, { name := "p" }, { name := "y" }],
            alignment := max (max (max 1 (1 : Int)) 1) 1 },
          { name := "m" ++ "_" ++ "q", arch_names := ["x", "q", "y"],
            archs := [{ name := "x" }, { name := "q" }, { name := "y" }],
            alignment := max (max (max 1 (1 : Int)) 1) 1 } ]
    ∧ register_machine [{ name := "x" }, { name := "p" }, { name := "q" }, { name := "y" }]
        "m" ["x", "p" ++ "|", "y"]
      = [ { name := "m" ++ "_" ++ "p", arch_names := ["x", "p", "y"],
            archs := [{ name := "x" }, { name := "p" }, { name := "y" }],
            alignment := max (max (max 1 (1 : Int)) 1) 1 },
          { name := "m", arch_names := ["x", "y"],
            archs := [{ name := "x" }, { name := "y" }],
            alignment := max (max 1 (1 : Int)) 1 } ] :=
  machine_alternation_expansion
    [{ name := "x" }, { name := "p" }, { name := "q" }, { name := "y" }]
    "m" "x" "p" "q" "y" { name := "x" } { name := "p" } { name := "q" } { name := "y" }
    (by decide) (by decide) (by decide) (by decide)
    (by decide) (by decide) (by decide) (by decide)
    (by decide) (by decide) (by decide) (by decide)

/-! ## Kernel assembly (volk_gen.cpp, lines 709-748)

The per-header tail of `parse_kernels`, from the parsed implementation
list to the catalog entry.  Diagnostics written to `stderr` are collected
in the second component. -/

/-- The dispatcher scan: erase the first implementation named
`dispatcher` and report whether one was found. -/
def removeDispatcher : List Impl → List Impl × Bool
  | [] => ([], false)
  | i :: rest =>
    if i.name = "dispatcher" then (rest, true)
    else
      let r := removeDispatcher rest
      (i :: r.1, r.2)

/-- Lines 709-748 of `parse_kernels`: skip silently when no
implementation was parsed; skip with a warning when none is named
`generic`; otherwise extract the dispatcher flag and take the canonical
argument list from the first surviving implementation. -/
def assemble_kernel (name pname : String) (impls : List Impl) :
    Option Kernel × List String :=
  if impls.isEmpty then (none, [])
  else if !(impls.any (fun i => decide (i.name = "generic"))) then
    (none, ["Warning: " ++ name ++ " does not have a generic protokernel, skipping."])
  else
    match (removeDispatcher impls).1 with
    | [] =>
      (some { name := name, pname := pname, impls := (removeDispatcher impls).1,
              has_dispatcher := (removeDispatcher impls).2 }, [])
    | i0 :: _ =>
      if i0.args.isEmpty then
        (some { name := name, pname := pname, impls := (removeDispatcher impls).1,
                has_dispatcher := (removeDispatcher impls).2 }, [])
      else
        (some { name := name, pname := pname, impls := (removeDispatcher impls).1,
                has_dispatcher := (removeDispatcher impls).2,
                args := i0.args,
                arglist_types := joinWith ", " (i0.args.map Prod.fst),
                arglist_full := joinWith ", " (i0.args.map (fun p => p.1 ++ " " ++ p.2)),
                arglist_names := joinWith ", " (i0.args.map Prod.snd) }, [])

theorem mem_removeDispatcher {i : Impl} :
    ∀ (l : List Impl), i ∈ l → i.name ≠ "dispatcher" → i ∈ (removeDispatcher l).1
  | [], h, _ => absurd h (List.not_mem_nil _)
  | j :: rest, h, hn => by
    unfold removeDispatcher
    by_cases hj : j.name = "dispatcher"
    · rw [if_pos hj]
      rcases List.mem_cons.mp h with he | hm
      · subst he
        exact absurd hj hn
      · exact hm
    · rw [if_neg hj]
      rcases List.mem_cons.mp h with he | hm
      · subst he
        exact List.mem_cons_self _ _
      · exact List.mem_cons_of_mem _ (mem_removeDispatcher rest hm hn)

/-- C5 (amended): every kernel assembled into the catalog has a
`generic` implementation; a nonempty implementation list without
`generic` yields no kernel and a diagnostic, while an empty list yields
no kernel and (silently) no diagnostic. -/
theorem kernel_generic_invariant (name pname : String) (impls : List Impl) :
    (∀ K, (assemble_kernel name pname impls).1 = some K →
        ∃ i ∈ K.impls, i.name = "generic")
    ∧ ((¬ ∃ i ∈ impls, i.name = "generic") →
        (assemble_kernel name pname impls).1 = none
        ∧ (impls ≠ [] → (assemble_kernel name pname impls).2 ≠ [])) := by
  constructor
  · intro K hK
    unfold assemble_kernel at hK
    split at hK
    · exact absurd hK (by simp)
    · split at hK
      · exact absurd hK (by simp)
      · rename_i he hgne
        have hany : impls.any (fun i => decide (i.name = "generic")) = true := by
          revert hgne
          cases impls.any (fun i => decide (i.name = "generic")) <;> simp
        obtain ⟨i, hi, hgen⟩ : ∃ i ∈ impls, i.name = "generic" := by
          obtain ⟨i, hi, hd⟩ := List.any_eq_true.mp hany
          exact ⟨i, hi, of_decide_eq_true hd⟩
        have hnd : i.name ≠ "dispatcher" := by
          rw [hgen]
          decide
        have hmem : i ∈ (removeDispatcher impls).1 := mem_removeDispatcher impls hi hnd
        have hKimpls : K.impls = (removeDispatcher impls).1 := by
          split at hK
          · cases hK
            rfl
          · split at hK
            · cases hK
              rfl
            · cases hK
              rfl
        exact ⟨i, hKimpls ▸ hmem, hgen⟩
  · intro hno
    have hg : impls.any (fun i => decide (i.name = "generic")) = false := by
      rw [Bool.eq_false_iff]
      intro hany
      obtain ⟨i, hi, hd⟩ := List.any_eq_true.mp hany
      exact hno ⟨i, hi, of_decide_eq_true hd⟩
    have hcond : (!(impls.any (fun i => decide (i.name = "generic")))) = true := by
      rw [hg]
      rfl
    unfold assemble_kernel
    by_cases he : impls.isEmpty
    · rw [if_pos he]
      refine ⟨rfl, ?_⟩
      intro hne
      exact absurd (List.isEmpty_iff.mp he) hne
    · rw [if_neg he, if_pos hcond]
      exact ⟨rfl, fun _ => by simp⟩

/-- C5 counterexample: a header whose parsed implementation list is
empty contains no `generic` implementation; it contributes no kernel but
also produces no diagnostic (the code `continue`s before the generic
check), contradicting the claim that a diagnostic is produced. -/
theorem kernel_generic_empty_no_diagnostic :
    ¬ ((assemble_kernel "volk_foo" "p_foo" []).1 = none
       ∧ (assemble_kernel "volk_foo" "p_foo" []).2 ≠ []) := by
  decide

/-- Witness for `kernel_generic_invariant` at a concrete kernel. -/
theorem kernel_generic_invariant_witness :
    (∀ K, (assemble_kernel "volk_k" "p_k" [{ name := "sse", deps := ["sse"] }]).1 = some K →
        ∃ i ∈ K.impls, i.name = "generic")
    ∧ ((¬ ∃ i ∈ [({ name := "sse", deps := ["sse"] } : Impl)], i.name = "generic") →
        (assemble_kernel "volk_k" "p_k" [{ name := "sse", deps := ["sse"] }]).1 = none
        ∧ ([({ name := "sse", deps := ["sse"] } : Impl)] ≠ [] →
            (assemble_kernel "volk_k" "p_k" [{ name := "sse", deps := ["sse"] }]).2 ≠ [])) :=
  kernel_generic_invariant "volk_k" "p_k" [{ name := "sse", deps := ["sse"] }]

/-! ## Comment removal (volk_gen.cpp, lines 430-473)

`remove_comments` is a single-pass scanner with four states; the index
arithmetic (`++i` after a recognized two-character sequence) becomes
consuming two list elements. -/

/-- The apostrophe character (written numerically). -/
def squote : Char := Char.ofNat 39

/-- Scanner state of `remove_comments`. -/
inductive CState where
  | normal : CState
  | lineComment : CState
  | blockComment : CState
  | inString : Char → CState
deriving DecidableEq

/-- The character loop of `remove_comments`.  In `normal` state a quote
opens a literal; `//` and `/*` (when a next character exists) open
comments; inside a literal a backslash consumes the following character;
inside a block comment characters are dropped until an adjacent `*/`. -/
def rcGo : CState → List Char → List Char
  | _, [] => []
  | .lineComment, c :: rest =>
    if c = '\n' then '\n' :: rcGo .normal rest else rcGo .lineComment rest
  | .blockComment, [_] => []
  | .blockComment, c1 :: c2 :: rest =>
    if c1 = '*' ∧ c2 = '/' then rcGo .normal rest
    else rcGo .blockComment (c2 :: rest)
  | .inString q, c :: rest =>
    if c = '\\' then
      match rest with
      | [] => [c]
      | d :: rest2 => c :: d :: rcGo (.inString q) rest2
    else if c = q then c :: rcGo .normal rest
    else c :: rcGo (.inString q) rest
  | .normal, c :: rest =>
    if c = '"' ∨ c = squote then c :: rcGo (.inString c) rest
    else
      match rest with
      | [] => [c]
      | d :: rest2 =>
        if c = '/' ∧ d = '/' then rcGo .lineComment rest2
        else if c = '/' ∧ d = '*' then rcGo .blockComment rest2
        else c :: rcGo .normal (d :: rest2)
termination_by _ l => l.length
decreasing_by
  all_goals simp_wf
  all_goals omega

/-- `remove_comments` from the source. -/
def remove_comments (code : String) : String := String.mk (rcGo .normal code.data)

/-- Scan a prefix, refusing (`none`) whenever the scanner's two-character
lookahead would cross the end of the prefix; on success, return the
emitted output and the final state. -/
def scanStrict : CState → List Char → Option (List Char × CState)
  | st, [] => some ([], st)
  | .lineComment, c :: rest =>
    if c = '\n' then (scanStrict .normal rest).map (fun r => ('\n' :: r.1, r.2))
    else scanStrict .lineComment rest
  | .blockComment, [_] => none
  | .blockComment, c1 :: c2 :: rest =>
    if c1 = '*' ∧ c2 = '/' then scanStrict .normal rest
    else scanStrict .blockComment (c2 :: rest)
  | .inString q, c :: rest =>
    if c = '\\' then
      match rest with
      | [] => none
      | d :: rest2 => (scanStrict (.inString q) rest2).map (fun r => (c :: d :: r.1, r.2))
    else if c = q then (scanStrict .normal rest).map (fun r => (c :: r.1, r.2))
    else (scanStrict (.inString q) rest).map (fun r => (c :: r.1, r.2))
  | .normal, c :: rest =>
    if c = '"' ∨ c = squote then
      (scanStrict (.inString c) rest).map (fun r => (c :: r.1, r.2))
    else
      match rest with
      | [] => if c = '/' then none else some ([c], .normal)
      | d :: rest2 =>
        if c = '/' ∧ d = '/' then scanStrict .lineComment rest2
        else if c = '/' ∧ d = '*' then scanStrict .blockComment rest2
        else (scanStrict .normal (d :: rest2)).map (fun r => (c :: r.1, r.2))
termination_by _ l => l.length
decreasing_by
  all_goals simp_wf
  all_goals omega

theorem rcGo_nil (st : CState) : rcGo st [] = [] := by
  cases st <;> (rw [rcGo.eq_def])

theorem scanStrict_nil (st : CState) : scanStrict st [] = some ([], st) := by
  cases st <;> (rw [scanStrict.eq_def])

/-- A successful strict scan of a prefix composes with scanning the rest. -/
theorem scanStrict_spec :
    ∀ (st : CState) (l : List Char) (out : List Char) (st2 : CState),
      scanStrict st l = some (out, st2) →
      ∀ rest, rcGo st (l ++ rest) = out ++ rcGo st2 rest
  | st, [], out, st2, h, rest => by
    cases st <;>
      (rw [scanStrict.eq_def] at h
       dsimp only at h
       simp only [Option.some.injEq, Prod.mk.injEq] at h
       rw [← h.1, ← h.2]
       simp)
  | .lineComment, c :: l0, out, st2, h, rest => by
    rw [scanStrict.eq_def] at h
    dsimp only at h
    by_cases hc : c = '\n'
    · rw [if_pos hc] at h
      rw [Option.map_eq_some'] at h
      obtain ⟨r, hr, he⟩ := h
      simp only [Prod.mk.injEq] at he
      rw [List.cons_append, rcGo.eq_def]
      dsimp only
      rw [if_pos hc, ← he.1, ← he.2,
        scanStrict_spec _ l0 r.1 r.2 (by rw [hr]) rest]
      simp [hc]
    · rw [if_neg hc] at h
      rw [List.cons_append, rcGo.eq_def]
      dsimp only
      rw [if_neg hc]
      exact scanStrict_spec _ l0 out st2 h rest
  | .blockComment, [c], out, st2, h, rest => by
    rw [scanStrict.eq_def] at h
    dsimp only at h
    simp at h
  | .blockComment, c1 :: c2 :: l0, out, st2, h, rest => by
    rw [scanStrict.eq_def] at h
    dsimp only at h
    by_cases h12 : c1 = '*' ∧ c2 = '/'
    · rw [if_pos h12] at h
      rw [List.cons_append, List.cons_append, rcGo.eq_def]
      dsimp only
      rw [if_pos h12]
      exact scanStrict_spec _ l0 out st2 h rest
    · rw [if_neg h12] at h
      rw [List.cons_append, List.cons_append, rcGo.eq_def]
      dsimp only
      rw [if_neg h12, ← List.cons_append]
      exact scanStrict_spec _ (c2 :: l0) out st2 h rest
  | .inString q, [c], out, st2, h, rest => by
    rw [scanStrict.eq_def] at h
    dsimp only at h
    by_cases hbs : c = '\\'
    · rw [if_pos hbs] at h
      simp at h
    · rw [if_neg hbs] at h
      by_cases hq : c = q
      · rw [if_pos hq] at h
        rw [Option.map_eq_some'] at h
        obtain ⟨r, hr, he⟩ := h
        simp only [Prod.mk.injEq] at he
        rw [List.cons_append, rcGo.eq_def]
        dsimp only
        rw [scanStrict_nil] at hr
        injection hr with hr
        rw [if_neg hbs, if_pos hq, ← he.1, ← he.2, ← hr]
        simp
      · rw [if_neg hq] at h
        rw [Option.map_eq_some'] at h
        obtain ⟨r, hr, he⟩ := h
        simp only [Prod.mk.injEq] at he
        rw [List.cons_append, rcGo.eq_def]
        dsimp only
        rw [scanStrict_nil] at hr
        injection hr with hr
        rw [if_neg hbs, if_neg hq, ← he.1, ← he.2, ← hr]
        simp
  | .inString q, c :: d :: l2, out, st2, h, rest => by
    rw [scanStrict.eq_def] at h
    dsimp only at h
    by_cases hbs : c = '\\'
    · rw [if_pos hbs] at h
      rw [Option.map_eq_some'] at h
      obtain ⟨r, hr, he⟩ := h
      simp only [Prod.mk.injEq] at he
      rw [List.cons_append, List.cons_append, rcGo.eq_def]
      dsimp only
      rw [if_pos hbs, ← he.1, ← he.2,
        scanStrict_spec _ l2 r.1 r.2 (by rw [hr]) rest]
      simp
    · rw [if_neg hbs] at h
      by_cases hq : c = q
      · rw [if_pos hq] at h
        rw [Option.map_eq_some'] at h
        obtain ⟨r, hr, he⟩ := h
        simp only [Prod.mk.injEq] at he
        rw [List.cons_append, rcGo.eq_def]
        dsimp only
        rw [if_neg hbs, if_pos hq, ← he.1, ← he.2,
          scanStrict_spec _ (d :: l2) r.1 r.2 (by rw [hr]) rest]
        simp
      · rw [if_neg hq] at h
        rw [Option.map_eq_some'] at h
        obtain ⟨r, hr, he⟩ := h
        simp only [Prod.mk.injEq] at he
        rw [List.cons_append, rcGo.eq_def]
        dsimp only
        rw [if_neg hbs, if_neg hq, ← he.1, ← he.2,
          scanStrict_spec _ (d :: l2) r.1 r.2 (by rw [hr]) rest]
        simp
  | .normal, [c], out, st2, h, rest => by
    rw [scanStrict.eq_def] at h
    dsimp only at h
    by_cases hqu : c = '"' ∨ c = squote
    · rw [if_pos hqu] at h
      rw [Option.map_eq_some'] at h
      obtain ⟨r, hr, he⟩ := h
      simp only [Prod.mk.injEq] at he
      rw [List.cons_append, rcGo.eq_def]
      dsimp only
      rw [scanStrict_nil] at hr
      injection hr with hr
      rw [if_pos hqu, ← he.1, ← he.2, ← hr]
      simp
    · rw [if_neg hqu] at h
      by_cases hsl : c = '/'
      · rw [if_pos hsl] at h
        simp at h
      · rw [if_neg hsl] at h
        simp only [Option.some.injEq, Prod.mk.injEq] at h
        rw [← h.1, ← h.2]
        rw [List.cons_append, List.nil_append, rcGo.eq_def]
        dsimp only
        rw [if_neg hqu]
        cases rest with
        | nil =>
          dsimp only
          rw [rcGo_nil]
          simp
        | cons d r2 =>
          dsimp only
          have hc1 : ¬(c = '/' ∧ d = '/') := fun hx => hsl hx.1
          have hc2 : ¬(c = '/' ∧ d = '*') := fun hx => hsl hx.1
          rw [if_neg hc1, if_neg hc2]
          rfl
  | .normal, c :: d :: l2, out, st2, h, rest => by
    rw [scanStrict.eq_def] at h
    dsimp only at h
    by_cases hqu : c = '"' ∨ c = squote
    · rw [if_pos hqu] at h
      rw [Option.map_eq_some'] at h
      obtain ⟨r, hr, he⟩ := h
      simp only [Prod.mk.injEq] at he
      rw [List.cons_append, rcGo.eq_def]
      dsimp only
      rw [if_pos hqu, ← he.1, ← he.2,
        scanStrict_spec _ (d :: l2) r.1 r.2 (by rw [hr]) rest]
      simp
    · rw [if_neg hqu] at h
      by_cases hll : c = '/' ∧ d = '/'
      · rw [if_pos hll] at h
        rw [List.cons_append, List.cons_append, rcGo.eq_def]
        dsimp only
        rw [if_neg hqu, if_pos hll]
        exact scanStrict_spec _ l2 out st2 h rest
      · rw [if_neg hll] at h
        by_cases hlb : c = '/' ∧ d = '*'
        · rw [if_pos hlb] at h
          rw [List.cons_append, List.cons_append, rcGo.eq_def]
          dsimp only
          rw [if_neg hqu, if_neg hll, if_pos hlb]
          exact scanStrict_spec _ l2 out st2 h rest
        · rw [if_neg hlb] at h
          rw [Option.map_eq_some'] at h
          obtain ⟨r, hr, he⟩ := h
          simp only [Prod.mk.injEq] at he
          rw [List.cons_append, List.cons_append, rcGo.eq_def]
          dsimp only
          rw [if_neg hqu, if_neg hll, if_neg hlb, ← List.cons_append,
            ← he.1, ← he.2,
            scanStrict_spec _ (d :: l2) r.1 r.2 (by rw [hr]) rest]
          simp
termination_by st l out st2 h rest => l.length
decreasing_by
  all_goals simp_wf
  all_goals omega

/-- Escape-well-formed literal body: backslash pairs with the following
character, and every unescaped character differs from the quote `q`. -/
def litBody (q : Char) : List Char → Bool
  | [] => true
  | c :: rest =>
    if c = '\\' then
      match rest with
      | [] => false
      | _ :: rest2 => litBody q rest2
    else if c = q then false
    else litBody q rest

/-- No adjacent `*/` pair inside a block-comment body. -/
def noStarSlash : List Char → Bool
  | [] => true
  | c :: rest =>
    match rest with
    | [] => true
    | d :: _ => if c = '*' ∧ d = '/' then false else noStarSlash rest

theorem rcGo_open_quote (q : Char) (X : List Char) (hq : q = '"' ∨ q = squote) :
    rcGo .normal (q :: X) = q :: rcGo (.inString q) X := by
  rw [rcGo.eq_def]
  dsimp only
  rw [if_pos hq]

theorem rcGo_open_line (X : List Char) :
    rcGo .normal ('/' :: '/' :: X) = rcGo .lineComment X := by
  rw [rcGo.eq_def]
  dsimp only
  rw [if_neg (by decide), if_pos (⟨rfl, rfl⟩ : ('/' : Char) = '/' ∧ ('/' : Char) = '/')]

theorem rcGo_open_block (X : List Char) :
    rcGo .normal ('/' :: '*' :: X) = rcGo .blockComment X := by
  rw [rcGo.eq_def]
  dsimp only
  rw [if_neg (by decide), if_neg (by decide),
    if_pos (⟨rfl, rfl⟩ : ('/' : Char) = '/' ∧ ('*' : Char) = '*')]

theorem rcGo_line_comment :
    ∀ (cmt : List Char), '\n' ∉ cmt →
      ∀ post, rcGo .lineComment (cmt ++ '\n' :: post) = '\n' :: rcGo .normal post
  | [], _, post => by
    rw [List.nil_append, rcGo.eq_def]
    dsimp only
    rw [if_pos rfl]
  | c :: rest, h, post => by
    have hc : ¬c = '\n' := fun he => h (he ▸ List.mem_cons_self _ _)
    rw [List.cons_append, rcGo.eq_def]
    dsimp only
    rw [if_neg hc]
    exact rcGo_line_comment rest (fun hm => h (List.mem_cons_of_mem _ hm)) post

theorem rcGo_block_comment :
    ∀ (cmt : List Char), noStarSlash cmt = true →
      ∀ post, rcGo .blockComment (cmt ++ '*' :: '/' :: post) = rcGo .normal post
  | [], _, post => by
    rw [List.nil_append, rcGo.eq_def]
    dsimp only
    rw [if_pos (⟨rfl, rfl⟩ : ('*' : Char) = '*' ∧ ('/' : Char) = '/')]
  | [c], _, post => by
    have hpair : ¬(c = '*' ∧ ('*' : Char) = '/') := fun hx => absurd hx.2 (by decide)
    rw [List.cons_append, List.nil_append, rcGo.eq_def]
    dsimp only
    rw [if_neg hpair]
    exact rcGo_block_comment [] rfl post
  | c1 :: c2 :: rest, hns, post => by
    rw [noStarSlash.eq_def] at hns
    dsimp only at hns
    by_cases hpc : c1 = '*' ∧ c2 = '/'
    · rw [if_pos hpc] at hns
      cases hns
    · rw [if_neg hpc] at hns
      rw [List.cons_append, List.cons_append, rcGo.eq_def]
      dsimp only
      rw [if_neg hpc, ← List.cons_append]
      exact rcGo_block_comment (c2 :: rest) hns post
termination_by cmt => cmt.length
decreasing_by
  all_goals simp_wf
  all_goals omega

theorem rcGo_string_lit (q : Char) (hq : q = '"' ∨ q = squote) :
    ∀ (body : List Char), litBody q body = true →
      ∀ post, rcGo (.inString q) (body ++ q :: post) = body ++ q :: rcGo .normal post
  | [], _, post => by
    have hnb : ¬q = '\\' := by
      rcases hq with h | h <;> (subst h; decide)
    rw [List.nil_append, rcGo.eq_def]
    dsimp only
    rw [if_neg hnb, if_pos rfl]
    rfl
  | [c], hlit, post => by
    rw [litBody.eq_def] at hlit
    dsimp only at hlit
    by_cases hbs : c = '\\'
    · rw [if_pos hbs] at hlit
      cases hlit
    · rw [if_neg hbs] at hlit
      by_cases hcq : c = q
      · rw [if_pos hcq] at hlit
        cases hlit
      · rw [List.cons_append, List.nil_append, rcGo.eq_def]
        dsimp only
        rw [if_neg hbs, if_neg hcq]
        have h0 := rcGo_string_lit q hq [] rfl post
        simp only [List.nil_append] at h0
        rw [h0]
        simp
  | c :: d :: rest2, hlit, post => by
    rw [litBody.eq_def] at hlit
    dsimp only at hlit
    by_cases hbs : c = '\\'
    · rw [if_pos hbs] at hlit
      rw [List.cons_append, List.cons_append, rcGo.eq_def]
      dsimp only
      rw [if_pos hbs]
      rw [rcGo_string_lit q hq rest2 hlit post]
      simp
    · rw [if_neg hbs] at hlit
      by_cases hcq : c = q
      · rw [if_pos hcq] at hlit
        cases hlit
      · rw [if_neg hcq] at hlit
        rw [List.cons_append, rcGo.eq_def]
        dsimp only
        rw [if_neg hbs, if_neg hcq]
        rw [rcGo_string_lit q hq (d :: rest2) hlit post]
        simp
termination_by body => body.length
decreasing_by
  all_goals simp_wf
  all_goals omega

/-- C8: comment removal deletes line and block comments, and preserves
string/character literals verbatim: after any prefix whose strict scan
ends back in `normal` state, a `//` comment is deleted up to its newline,
a `/*` ... `*/` comment is deleted entirely, and a well-formed quoted
literal (with backslash escapes) passes through unchanged, never treated
as opening a comment. -/
theorem remove_comments_spec (pre out post cmt body : List Char) (q : Char)
    (hpre : scanStrict .normal pre = some (out, .normal)) :
    (('\n' ∉ cmt) →
      (remove_comments (String.mk (pre ++ '/' :: '/' :: (cmt ++ '\n' :: post)))).data
        = out ++ '\n' :: (remove_comments (String.mk post)).data)
    ∧ ((noStarSlash cmt = true) →
      (remove_comments (String.mk (pre ++ '/' :: '*' :: (cmt ++ '*' :: '/' :: post)))).data
        = out ++ (remove_comments (String.mk post)).data)
    ∧ (∀ _ : q = '"' ∨ q = squote, litBody q body = true →
      (remove_comments (String.mk (pre ++ q :: (body ++ q :: post)))).data
        = out ++ q :: (body ++ q :: (remove_comments (String.mk post)).data)) := by
  refine ⟨?_, ?_, ?_⟩
  · intro hcmt
    show rcGo .normal (pre ++ '/' :: '/' :: (cmt ++ '\n' :: post))
      = out ++ '\n' :: rcGo .normal post
    rw [scanStrict_spec _ pre out .normal hpre, rcGo_open_line,
      rcGo_line_comment cmt hcmt post]
  · intro hns
    show rcGo .normal (pre ++ '/' :: '*' :: (cmt ++ '*' :: '/' :: post))
      = out ++ rcGo .normal post
    rw [scanStrict_spec _ pre out .normal hpre, rcGo_open_block,
      rcGo_block_comment cmt hns post]
  · intro hq hlit
    show rcGo .normal (pre ++ q :: (body ++ q :: post))
      = out ++ q :: (body ++ q :: rcGo .normal post)
    rw [scanStrict_spec _ pre out .normal hpre, rcGo_open_quote q _ hq,
      rcGo_string_lit q hq body hlit post]

/-- Witness for `remove_comments_spec`: a literal containing `//`, `/*`
and an escaped quote survives verbatim; concrete comments are deleted. -/
theorem remove_comments_spec_witness :
    ((remove_comments (String.mk ([] ++ '/' :: '/' :: ([' ', 'c'] ++ '\n' :: ['x'])))).data
      = [] ++ '\n' :: (remove_comments (String.mk ['x'])).data)
    ∧ ((remove_comments (String.mk ([] ++ '/' :: '*' :: ([' ', 'c'] ++ '*' :: '/' :: ['x'])))).data
      = [] ++ (remove_comments (String.mk ['x'])).data)
    ∧ ((remove_comments (String.mk ([] ++ '"' :: (['a', '/', '/', 'b', '\\', '"', '/', '*'] ++ '"' :: ['x'])))).data
      = [] ++ '"' :: (['a', '/', '/', 'b', '\\', '"', '/', '*'] ++ '"' :: (remove_comments (String.mk ['x'])).data)) :=
  ⟨(remove_comments_spec [] [] ['x'] [' ', 'c'] ['a', '/', '/', 'b', '\\', '"', '/', '*'] '"'
      (scanStrict_nil _)).1 (by decide),
   (remove_comments_spec [] [] ['x'] [' ', 'c'] ['a', '/', '/', 'b', '\\', '"', '/', '*'] '"'
      (scanStrict_nil _)).2.1 (by decide),
   (remove_comments_spec [] [] ['x'] [' ', 'c'] ['a', '/', '/', 'b', '\\', '"', '/', '*'] '"'
      (scanStrict_nil _)).2.2 (Or.inl rfl) (by decide)⟩

/-! ## Template-line parsers (volk_gen.cpp, lines 831-833, 877, 962-965)

The `std::regex` patterns classifying template lines are hand-compiled
into character-list parsers.  `\s` is the ECMAScript whitespace class,
`\w` is alphanumeric-or-underscore.  All the patterns are used with
`regex_match`, i.e. they must cover the whole line. -/

def isWsRegexChar (c : Char) : Bool :=
  c = ' ' || c = '\t' || c = '\n' || c = '\r' || c = Char.ofNat 11 || c = Char.ofNat 12

def isWordChar (c : Char) : Bool := c.isAlphanum || c = '_'

def isWordDot (c : Char) : Bool := isWordChar c || c = '.'

/-- Consume an exact literal. -/
def matchLit : List Char → List Char → Option (List Char)
  | [], l => some l
  | _ :: _, [] => none
  | c :: cs, x :: xs => if x = c then matchLit cs xs else none

/-- `\s+` (one or more whitespace characters, maximal). -/
def ws1 (l : List Char) : Option (List Char) :=
  match l with
  | [] => none
  | c :: rest => if isWsRegexChar c then some (rest.dropWhile isWsRegexChar) else none

/-- `(\w+)` (maximal, nonempty). -/
def word1 (l : List Char) : Option (List Char × List Char) :=
  let w := l.takeWhile isWordChar
  if w.isEmpty then none else some (w, l.dropWhile isWordChar)

/-- `([\w.]+)` (maximal, nonempty). -/
def wordDot1 (l : List Char) : Option (List Char × List Char) :=
  let w := l.takeWhile isWordDot
  if w.isEmpty then none else some (w, l.dropWhile isWordDot)

/-- `^\s*%\s*for\s+(\w+)\s+in\s+([\w.]+)\s*:` as a whole-line match. -/
def parseFor (line : String) : Option (String × String) :=
  match line.data.dropWhile isWsRegexChar with
  | '%' :: l2 =>
    match matchLit "for".data (l2.dropWhile isWsRegexChar) with
    | none => none
    | some l4 =>
      match ws1 l4 with
      | none => none
      | some l5 =>
        match word1 l5 with
        | none => none
        | some (v, l6) =>
          match ws1 l6 with
          | none => none
          | some l7 =>
            match matchLit "in".data l7 with
            | none => none
            | some l8 =>
              match ws1 l8 with
              | none => none
              | some l9 =>
                match wordDot1 l9 with
                | none => none
                | some (coll, l10) =>
                  match l10.dropWhile isWsRegexChar with
                  | [':'] => some (String.mk v, String.mk coll)
                  | _ => none
  | _ => none

/-- `^\s*%\s*for\s+(\w+)\s*,\s*(\w+)\s+in\s+enumerate\((\w+)\)\s*:`. -/
def parseForEnum (line : String) : Option (String × String × String) :=
  match line.data.dropWhile isWsRegexChar with
  | '%' :: l2 =>
    match matchLit "for".data (l2.dropWhile isWsRegexChar) with
    | none => none
    | some l4 =>
      match ws1 l4 with
      | none => none
      | some l5 =>
        match word1 l5 with
        | none => none
        | some (iv, l6) =>
          match l6.dropWhile isWsRegexChar with
          | ',' :: l7 =>
            match word1 (l7.dropWhile isWsRegexChar) with
            | none => none
            | some (v, l8) =>
              match ws1 l8 with
              | none => none
              | some l9 =>
                match matchLit "in".data l9 with
                | none => none
                | some l10 =>
                  match ws1 l10 with
                  | none => none
                  | some l11 =>
                    match matchLit "enumerate(".data l11 with
                    | none => none
                    | some l12 =>
                      match word1 l12 with
                      | none => none
                      | some (coll, l13) =>
                        match l13 with
                        | ')' :: l14 =>
                          match l14.dropWhile isWsRegexChar with
                          | [':'] => some (String.mk iv, String.mk v, String.mk coll)
                          | _ => none
                        | _ => none
          | _ => none
  | _ => none

/-- `^\s*%\s*for\s+(\w+)\s*,\s*(\w+)\s+in\s+([\w.]+)\s*:`. -/
def parseForTuple (line : String) : Option (String × String × String) :=
  match line.data.dropWhile isWsRegexChar with
  | '%' :: l2 =>
    match matchLit "for".data (l2.dropWhile isWsRegexChar) with
    | none => none
    | some l4 =>
      match ws1 l4 with
      | none => none
      | some l5 =>
        match word1 l5 with
        | none => none
        | some (iv, l6) =>
          match l6.dropWhile isWsRegexChar with
          | ',' :: l7 =>
            match word1 (l7.dropWhile isWsRegexChar) with
            | none => none
            | some (v, l8) =>
              match ws1 l8 with
              | none => none
              | some l9 =>
                match matchLit "in".data l9 with
                | none => none
                | some l10 =>
                  match ws1 l10 with
                  | none => none
                  | some l11 =>
                    match wordDot1 l11 with
                    | none => none
                    | some (coll, l12) =>
                      match l12.dropWhile isWsRegexChar with
                      | [':'] => some (String.mk iv, String.mk v, String.mk coll)
                      | _ => none
          | _ => none
  | _ => none

/-- `^\s*%\s*endfor` as a whole-line match (nothing may follow). -/
def isEndfor (line : String) : Bool :=
  match line.data.dropWhile isWsRegexChar with
  | '%' :: l2 =>
    match matchLit "endfor".data (l2.dropWhile isWsRegexChar) with
    | some [] => true
    | _ => false
  | _ => false

/-- `^\s*%\s*endif` as a whole-line match. -/
def isEndif (line : String) : Bool :=
  match line.data.dropWhile isWsRegexChar with
  | '%' :: l2 =>
    match matchLit "endif".data (l2.dropWhile isWsRegexChar) with
    | some [] => true
    | _ => false
  | _ => false

/-- `^\s*%\s*else\s*:` as a whole-line match. -/
def isElse (line : String) : Bool :=
  match line.data.dropWhile isWsRegexChar with
  | '%' :: l2 =>
    match matchLit "else".data (l2.dropWhile isWsRegexChar) with
    | some l4 =>
      match l4.dropWhile isWsRegexChar with
      | [':'] => true
      | _ => false
    | none => false
  | _ => false

def trimRightWs (l : List Char) : List Char :=
  (l.reverse.dropWhile isWsRegexChar).reverse

/-- `^\s*%\s*if\s+(.+?)\s*:` as a whole-line match: at least one space
after `if`, the line must end in `:`, and the lazily-captured condition
is everything up to the final `:` with trailing whitespace stripped.
(The degenerate case of an all-whitespace condition is not recognized,
matching the regex except for the irrelevant capture of a lone blank.) -/
def parseIfWith (kw : String) (line : String) : Option String :=
  match line.data.dropWhile isWsRegexChar with
  | '%' :: l2 =>
    match matchLit kw.data (l2.dropWhile isWsRegexChar) with
    | none => none
    | some l4 =>
      match ws1 l4 with
      | none => none
      | some l5 =>
        match l5.reverse with
        | ':' :: rev2 =>
          let cond := (rev2.dropWhile isWsRegexChar).reverse
          if cond.isEmpty then none else some (String.mk cond)
        | _ => none
  | _ => none

def parseIf (line : String) : Option String := parseIfWith "if" line

def parseElif (line : String) : Option String := parseIfWith "elif" line

/-! ## Engine state and expression evaluation
(volk_gen.cpp, lines 756-760, 1325-1402) -/

structure Catalogs where
  archs : List Arch := []
  machines : List Machine := []
  kernels : List Kernel := []

/-- `g_machine_dict` lookup (built in catalog order, later entries
overwriting earlier ones). -/
def findMachine (cats : Catalogs) (n : String) : Option Machine :=
  cats.machines.foldl (fun acc m => if m.name = n then some m else acc) none

/-- The engine's mutable fields (volk_gen.cpp, lines 1389-1402); the
unused `current_impl_` pointer is omitted. -/
structure EngineState where
  vars : List (String × String) := []
  kern : Option Kernel := none
  arch : Option Arch := none
  machine : Option Machine := none
  argIndex : Int := -1
  checkIndex : Int := -1
  enumIndex : Int := -1
  numOpenParens : Nat := 0
  endOpenParens : String := ""
  currentImpls : List Impl := []
  lenArchs : Nat := 0

def kernField (K : Kernel) (e : String) : Option String :=
  if e = "kern.name" then some K.name
  else if e = "kern.pname" then some K.pname
  else if e = "kern.arglist_full" then some K.arglist_full
  else if e = "kern.arglist_names" then some K.arglist_names
  else if e = "kern.arglist_types" then some K.arglist_types
  else if e = "kern.has_dispatcher" then some (if K.has_dispatcher then "1" else "")
  else none

def archField (A : Arch) (e : String) : Option String :=
  if e = "arch.name" then some A.name
  else if e = "arch.name.upper()" then some (toUpperStr A.name)
  else none

def machineField (M : Machine) (e : String) : Option String :=
  if e = "this_machine.alignment" then some (toString M.alignment)
  else if e = "this_machine.name" then some M.name
  else if e = "machine.name" then some M.name
  else if e = "machine.name.upper()" then some (toUpperStr M.name)
  else none

def argField (st : EngineState) (e : String) : Option String :=
  match st.kern with
  | some K =>
    if 0 ≤ st.argIndex ∧ st.argIndex < Int.ofNat K.args.length then
      if e = "arg_type" then some (K.args.getD st.argIndex.toNat ("", "")).1
      else if e = "arg_name" then some (K.args.getD st.argIndex.toNat ("", "")).2
      else none
    else none
  | none => none

def checkField (st : EngineState) (e : String) : Option String :=
  match st.arch with
  | some A =>
    if 0 ≤ st.checkIndex ∧ st.checkIndex < Int.ofNat A.checks.length then
      if e = "check" then some (A.checks.getD st.checkIndex.toNat ("", [])).1
      else none
    else none
  | none => none

/-- `TemplateEngine::evaluate_expression` (lines 1325-1387): caller-set
variables, then the fixed current-selection fields, in source order; an
unknown expression yields the empty string. -/
def evaluate_expression (st : EngineState) (expr : String) : String :=
  let e := trimStr expr
  match st.vars.lookup e with
  | some v => v
  | none =>
    if e = "end_open_parens" then st.endOpenParens
    else
      match st.kern.bind (fun K => kernField K e) with
      | some v => v
      | none =>
        match st.arch.bind (fun A => archField A e) with
        | some v => v
        | none =>
          match st.machine.bind (fun M => machineField M e) with
          | some v => v
          | none =>
            match argField st e with
            | some v => v
            | none =>
              match checkField st e with
              | some v => v
              | none =>
                if e = "i" ∧ 0 ≤ st.enumIndex then toString st.enumIndex
                else if e = "len_archs" ∧ 0 < st.lenArchs then toString st.lenArchs
                else ""

/-! ## Condition evaluation (volk_gen.cpp, lines 1098-1173) -/

def digitsToNat (ds : List Char) : Nat :=
  ds.foldl (fun n c => n * 10 + (c.toNat - 48)) 0

/-- `(\w+(?:\.\w+)*)\[:(\d+)\]\s*==\s*"([^"]*)"` as a whole match: a
dotted path (maximal word-or-dot munch whose dot-split parts are all
nonempty), a slice bound, and a double-quoted literal ending the line. -/
def parseSliceEq (cl : List Char) : Option (String × Nat × String) :=
  let path := cl.takeWhile isWordDot
  let r1 := cl.dropWhile isWordDot
  if path.isEmpty then none
  else if !(splitOnCharL '.' path).all (fun p => !p.isEmpty) then none
  else
    match r1 with
    | '[' :: ':' :: r2 =>
      let ds := r2.takeWhile Char.isDigit
      let r3 := r2.dropWhile Char.isDigit
      if ds.isEmpty then none
      else
        match r3 with
        | ']' :: r4 =>
          match r4.dropWhile isWsRegexChar with
          | '=' :: '=' :: r6 =>
            match r6.dropWhile isWsRegexChar with
            | '"' :: r8 =>
              let content := r8.takeWhile (fun c => !(c = '"'))
              match r8.dropWhile (fun c => !(c = '"')) with
              | ['"'] => some (String.mk path, digitsToNat ds, String.mk content)
              | _ => none
            | _ => none
          | _ => none
        | _ => none
    | _ => none

/-- `'([^']+)'\s+in\s+(\w+)` as a whole match. -/
def parseStar (cl : List Char) : Option (String × String) :=
  match cl with
  | c0 :: r1 =>
    if c0 = squote then
      let content := r1.takeWhile (fun c => !(c = squote))
      if content.isEmpty then none
      else
        match r1.dropWhile (fun c => !(c = squote)) with
        | c1 :: r2 =>
          if c1 = squote then
            match ws1 r2 with
            | none => none
            | some r3 =>
              match matchLit "in".data r3 with
              | none => none
              | some r4 =>
                match ws1 r4 with
                | none => none
                | some r5 =>
                  match word1 r5 with
                  | some (v, []) => some (String.mk content, String.mk v)
                  | _ => none
          else none
        | [] => none
    else none
  | [] => none

/-- `"([^"]+)"\s+in\s+(\S+)` as a whole match. -/
def parseStrIn (cl : List Char) : Option (String × String) :=
  match cl with
  | '"' :: r1 =>
    let content := r1.takeWhile (fun c => !(c = '"'))
    if content.isEmpty then none
    else
      match r1.dropWhile (fun c => !(c = '"')) with
      | '"' :: r2 =>
        match ws1 r2 with
        | none => none
        | some r3 =>
          match matchLit "in".data r3 with
          | none => none
          | some r4 =>
            match ws1 r4 with
            | none => none
            | some r5 =>
              let tok := r5.takeWhile (fun c => !(isWsRegexChar c))
              match r5.dropWhile (fun c => !(isWsRegexChar c)) with
              | [] => if tok.isEmpty then none else some (String.mk content, String.mk tok)
              | _ => none
      | _ => none
  | _ => none

/-- `(\S+)\s+in\s+(\S+)` as a whole match. -/
def parseInExpr (cl : List Char) : Option (String × String) :=
  let t1 := cl.takeWhile (fun c => !(isWsRegexChar c))
  if t1.isEmpty then none
  else
    match ws1 (cl.dropWhile (fun c => !(isWsRegexChar c))) with
    | none => none
    | some r3 =>
      match matchLit "in".data r3 with
      | none => none
      | some r4 =>
        match ws1 r4 with
        | none => none
        | some r5 =>
          let t2 := r5.takeWhile (fun c => !(isWsRegexChar c))
          match r5.dropWhile (fun c => !(isWsRegexChar c)) with
          | [] => if t2.isEmpty then none else some (String.mk t1, String.mk t2)
          | _ => none

/-- The hardcoded deprecated-kernel list (lines 1154-1160). -/
def deprecatedKernels : List String :=
  ["volk_16i_x5_add_quad_16i_x4", "volk_16i_branch_4_state_8",
   "volk_16i_max_star_16i", "volk_16i_max_star_horizontal_16i",
   "volk_16i_permute_and_scalar_add", "volk_16i_x4_quad_max_star_16i",
   "volk_32fc_s32fc_multiply_32fc", "volk_32fc_s32fc_x2_rotator_32fc",
   "volk_32fc_x2_s32fc_multiply_conjugate_add_32fc"]

theorem leadMatch_length :
    ∀ {needle hay : List Char}, leadMatch needle hay = true → needle.length ≤ hay.length
  | [], _, _ => Nat.zero_le _
  | _ :: _, [], h => by cases h
  | p :: ps, x :: xs, h => by
    unfold leadMatch at h
    rw [Bool.and_eq_true] at h
    have := leadMatch_length h.2
    simp only [List.length_cons]
    omega

theorem substrFind_bound :
    ∀ {needle hay : List Char} {p : Nat},
      substrFind needle hay = some p → p + needle.length ≤ hay.length := by
  intro needle hay
  induction hay with
  | nil =>
    intro p h
    unfold substrFind at h
    by_cases hl : leadMatch needle [] = true
    · rw [if_pos hl] at h
      cases h
      simpa using leadMatch_length hl
    · rw [if_neg hl] at h
      cases h
  | cons x xs ih =>
    intro p h
    unfold substrFind at h
    by_cases hl : leadMatch needle (x :: xs) = true
    · rw [if_pos hl] at h
      cases h
      simpa using leadMatch_length hl
    · rw [if_neg hl] at h
      rw [Option.map_eq_some'] at h
      obtain ⟨q, hq, he⟩ := h
      have := ih hq
      simp only [List.length_cons]
      omega

theorem trimL_length (l : List Char) : (trimL l).length ≤ l.length := by
  unfold trimL
  calc ((l.dropWhile isTrimWsChar).reverse.dropWhile isTrimWsChar).reverse.length
      = ((l.dropWhile isTrimWsChar).reverse.dropWhile isTrimWsChar).length := by
        rw [List.length_reverse]
    _ ≤ (l.dropWhile isTrimWsChar).reverse.length := (List.dropWhile_sublist _).length_le
    _ = (l.dropWhile isTrimWsChar).length := by rw [List.length_reverse]
    _ ≤ l.length := (List.dropWhile_sublist _).length_le

/-- `TemplateEngine::evaluate_condition` (lines 1098-1173), in the exact
source order: naive `or`/`and` splitting at the first occurrence, slice
equality, quoted containment, `in` with the hardcoded deprecated list,
then dotted-path truthiness; anything else is false. -/
def evaluate_condition (st : EngineState) (cond : String) : Bool :=
  match hor : substrFind " or ".data (trimStr cond).data with
  | some p =>
    evaluate_condition st (String.mk ((trimStr cond).data.take p)) ||
    evaluate_condition st (String.mk ((trimStr cond).data.drop (p + 4)))
  | none =>
    match hand : substrFind " and ".data (trimStr cond).data with
    | some p =>
      evaluate_condition st (String.mk ((trimStr cond).data.take p)) &&
      evaluate_condition st (String.mk ((trimStr cond).data.drop (p + 5)))
    | none =>
      match parseSliceEq (trimStr cond).data with
      | some (v, len, expected) =>
        decide ((evaluate_expression st v).data.take len = expected.data)
      | none =>
        match parseStar (trimStr cond).data with
        | some (needle, varname) =>
          (substrFind needle.data (evaluate_expression st varname).data).isSome
        | none =>
          match parseStrIn (trimStr cond).data with
          | some (needle, v) =>
            (substrFind needle.data (evaluate_expression st v).data).isSome
          | none =>
            match parseInExpr (trimStr cond).data with
            | some (t1, coll) =>
              if coll = "deprecated_kernels" then
                deprecatedKernels.contains (evaluate_expression st t1)
              else false
            | none =>
              if (trimStr cond).data.contains '.' then
                decide (¬(evaluate_expression st (trimStr cond) = ""
                  ∨ evaluate_expression st (trimStr cond) = "0"
                  ∨ evaluate_expression st (trimStr cond) = "false"))
              else false
termination_by cond.data.length
decreasing_by
  · have hb := substrFind_bound hor
    have ht : (trimStr cond).data.length ≤ cond.data.length := trimL_length cond.data
    have h4 : (" or ".data).length = 4 := rfl
    rw [h4] at hb
    simp only [List.length_take, List.length_drop]
    omega
  · have hb := substrFind_bound hor
    have ht : (trimStr cond).data.length ≤ cond.data.length := trimL_length cond.data
    have h4 : (" or ".data).length = 4 := rfl
    rw [h4] at hb
    simp only [List.length_take, List.length_drop]
    omega
  · have hb := substrFind_bound hand
    have ht : (trimStr cond).data.length ≤ cond.data.length := trimL_length cond.data
    have h5 : (" and ".data).length = 5 := rfl
    rw [h5] at hb
    simp only [List.length_take, List.length_drop]
    omega
  · have hb := substrFind_bound hand
    have ht : (trimStr cond).data.length ≤ cond.data.length := trimL_length cond.data
    have h5 : (" and ".data).length = 5 := rfl
    rw [h5] at hb
    simp only [List.length_take, List.length_drop]
    omega

/-! ## Inline statement blocks (volk_gen.cpp, lines 1175-1323)

Each `regex_search` against a fixed pattern becomes a search for the
pattern's literal tokens separated by arbitrary whitespace (`\s*`). -/

/-- Match a token sequence at the current position, skipping `\s*`
between consecutive tokens. -/
def matchSeqAt : List (List Char) → List Char → Bool
  | [], _ => true
  | t :: ts, l =>
    match matchLit t l with
    | none => false
    | some r => matchSeqAt ts (r.dropWhile isWsRegexChar)

/-- `regex_search` for a token sequence: try every start position. -/
def searchSeq (toks : List (List Char)) : List Char → Bool
  | [] => matchSeqAt toks []
  | l => matchSeqAt toks l ||
         (match l with
          | [] => false
          | _ :: rest => searchSeq toks rest)

def searchPat (toks : List String) (s : String) : Bool :=
  searchSeq (toks.map String.data) s.data

/-- The literal token `')'*num_open_parens` (built without quote
literals). -/
def endParensTok : String :=
  String.mk ([squote, ')', squote] ++ "*num_open_parens".data)

def lbrace : Char := Char.ofNat 123

def rbrace : Char := Char.ofNat 125

/-- `TemplateEngine::execute_code_block` (lines 1175-1323): the fixed
pattern dispatch, in source order; a pattern whose state requirement
fails falls through to the later patterns, and anything unrecognized is
an empty no-op. -/
def execute_code_block (cats : Catalogs) (args : List String) (st : EngineState)
    (code : String) : String × EngineState :=
  let c := trimStr code
  if searchPat ["this_machine", "=", "machine_dict[args[0]]"] c then
    match args with
    | [] => ("", st)
    | a0 :: _ =>
      match findMachine cats a0 with
      | some m => ("", { st with machine := some m })
      | none => ("", st)
  else if searchPat ["arch_names", "=", "this_machine.arch_names"] c then ("", st)
  else if searchPat ["num_open_parens", "=", "0"] c then
    ("", { st with numOpenParens := 0 })
  else if searchPat ["num_open_parens", "+=", "1"] c then
    ("", { st with numOpenParens := st.numOpenParens + 1 })
  else if searchPat ["end_open_parens", "=", endParensTok] c then
    ("", { st with endOpenParens := String.mk (List.replicate st.numOpenParens ')') })
  else if searchPat ["impls", "=", "kern.get_impls(arch_names)"] c
      ∧ st.kern.isSome ∧ st.machine.isSome then
    match st.kern, st.machine with
    | some K, some M => ("", { st with currentImpls := K.get_impls M.arch_names })
    | _, _ => ("", st)
  else if searchPat ["make_arch_have_list", "="] c ∧ st.machine.isSome then
    match st.machine with
    | some M =>
      (joinWith " | " (M.archs.map (fun a => "(1 << LV_" ++ toUpperStr a.name ++ ")")), st)
    | none => ("", st)
  else if searchPat ["this_machine_name", "="] c ∧ st.machine.isSome then
    match st.machine with
    | some M => ("\"" ++ M.name ++ "\"", st)
    | none => ("", st)
  else if searchPat ["kern_name", "="] c ∧ st.kern.isSome then
    match st.kern with
    | some K => ("\"" ++ K.name ++ "\"", st)
    | none => ("", st)
  else if searchPat ["make_impl_name_list", "="] c then
    (String.mk [lbrace] ++ joinWith ", " (st.currentImpls.map (fun i => "\"" ++ i.name ++ "\""))
      ++ String.mk [rbrace], st)
  else if searchPat ["make_impl_deps_list", "="] c then
    (String.mk [lbrace] ++ joinWith ", " (st.currentImpls.map (fun i =>
        if i.deps.isEmpty then "0"
        else joinWith " | " (i.deps.map (fun d => "(1 << LV_" ++ toUpperStr d ++ ")"))))
      ++ String.mk [rbrace], st)
  else if searchPat ["make_impl_align_list", "="] c then
    (String.mk [lbrace] ++ joinWith ", " (st.currentImpls.map (fun i =>
        if i.is_aligned then "true" else "false")) ++ String.mk [rbrace], st)
  else if searchPat ["make_impl_fcn_list", "="] c ∧ st.kern.isSome then
    match st.kern with
    | some K =>
      (String.mk [lbrace] ++ joinWith ", " (st.currentImpls.map (fun i =>
          K.name ++ "_" ++ i.name)) ++ String.mk [rbrace], st)
    | none => ("", st)
  else if searchPat ["len_impls", "="] c then
    (toString st.currentImpls.length, st)
  else if searchPat ["len_archs", "=", "len(archs)"] c then
    ("", { st with lenArchs := cats.archs.length })
  else if (substrFind "deprecated_kernels".data c.data).isSome then ("", st)
  else if (substrFind "from platform import system".data c.data).isSome
      || (substrFind "system()".data c.data).isSome then ("", st)
  else ("", st)

/-! ## Per-line substitution passes (volk_gen.cpp, lines 1014-1051) -/

/-- The first match of `\$\{([^}]+)\}`: prefix, the (nonempty) brace
content, and the suffix.  A candidate `${` with no closing brace or with
empty content is skipped by advancing one position, as the regex engine
does. -/
def findVar : List Char → Option (List Char × List Char × List Char)
  | [] => none
  | c :: rest =>
    if c = '$' then
      match rest with
      | [] => none
      | d :: rest2 =>
        if d = lbrace then
          let content := rest2.takeWhile (fun x => !(x = rbrace))
          match rest2.dropWhile (fun x => !(x = rbrace)) with
          | _ :: after2 =>
            if content.isEmpty then
              (findVar rest).map (fun r => (c :: r.1, r.2.1, r.2.2))
            else some ([], content, after2)
          | [] => (findVar rest).map (fun r => (c :: r.1, r.2.1, r.2.2))
        else (findVar rest).map (fun r => (c :: r.1, r.2.1, r.2.2))
    else (findVar rest).map (fun r => (c :: r.1, r.2.1, r.2.2))

/-- The `${...}` substitution loop (lines 1031-1044): replace the first
match and rescan the whole line, at most `size + 100` times. -/
def substLoop (st : EngineState) : Nat → List Char → List Char
  | 0, l => l
  | fuel + 1, l =>
    match findVar l with
    | none => l
    | some (pre, e, suf) =>
      substLoop st fuel (pre ++ (evaluate_expression st (String.mk e)).data ++ suf)

def substVars (st : EngineState) (s : String) : String :=
  String.mk (substLoop st (s.data.length + 100) s.data)

/-- The first match of `<%(.*?)%>`: prefix, the code between the
markers, and the suffix.  A `<%` with no later `%>` matches nothing. -/
def findCodeBlock : List Char → Option (List Char × List Char × List Char)
  | [] => none
  | c :: rest =>
    if c = '<' then
      match rest with
      | [] => none
      | d :: rest2 =>
        if d = '%' then
          match substrFind ['%', '>'] rest2 with
          | some p => some ([], rest2.take p, rest2.drop (p + 2))
          | none => none
        else (findCodeBlock rest).map (fun r => (c :: r.1, r.2.1, r.2.2))
    else (findCodeBlock rest).map (fun r => (c :: r.1, r.2.1, r.2.2))

/-- The inline `<% ... %>` substitution loop (lines 1014-1029). -/
def codeLoop (cats : Catalogs) (args : List String) :
    Nat → EngineState → List Char → List Char × EngineState
  | 0, st, l => (l, st)
  | fuel + 1, st, l =>
    match findCodeBlock l with
    | none => (l, st)
    | some (pre, code, suf) =>
      let r := execute_code_block cats args st (String.mk code)
      codeLoop cats args fuel r.2 (pre ++ r.1.data ++ suf)

/-! ## The render loop (volk_gen.cpp, lines 762-1096)

`render` splits the template as `std::getline` does, threads the loop
stack, the conditional stack and the multi-line-block state through a
line-by-line pass, and executes closed loops through nested engines
(`render_block`) whose depth is capped at 20; the fuel argument counts
the remaining depth (`fuel = max_render_depth - current depth`). -/

structure LoopState where
  varName : String := ""
  indexVarName : String := ""
  collection : String := ""
  body : String := ""
  collecting : Bool := false
  isEnum : Bool := false
  depth : Nat := 0
deriving DecidableEq, Inhabited

structure IfState where
  conditionMet : Bool := false
  inElse : Bool := false
deriving DecidableEq, Inhabited

/-- Per-`render`-call state: engine fields plus the two stacks (list
head = `back()` of the C++ vector) and multi-line block collection. -/
structure RState where
  es : EngineState
  loopStack : List LoopState := []
  ifStack : List IfState := []
  inBlock : Bool := false
  blockContent : String := ""

/-- The banner prepended by `render` (line 764). -/
def bannerStr : String :=
  "\n/* this file was generated by volk template utils, do not edit! */\n\n"

/-- `std::getline` line splitting: fields of `\n`, with a trailing empty
field (from a final newline, or an empty template) not producing a line. -/
def splitLines (s : String) : List String :=
  let ls := splitOnCharL '\n' s.data
  (if (ls.getLastD []).isEmpty then ls.dropLast else ls).map String.mk

/-- Does a line match any of the three for-loop openers (used for depth
tracking while a loop body is being collected)? -/
def countsAsFor (line : String) : Bool :=
  (parseFor line).isSome || (parseForEnum line).isSome || (parseForTuple line).isSome

/-- One buffered line while collecting a loop body: any for-opener
deepens the loop, an `endfor` (reaching here only with positive
remaining depth) is buffered too. -/
def collectStep (rst : RState) (s : LoopState) (stackRest : List LoopState)
    (line : String) : String × RState :=
  let s2 := if countsAsFor line then { s with depth := s.depth + 1 } else s
  let s3 :=
    if !(isEndfor line) then { s2 with body := s2.body ++ line ++ "\n" }
    else if s2.depth > 0 then { s2 with body := s2.body ++ line ++ "\n" }
    else s2
  ("", { rst with loopStack := s3 :: stackRest })

/-- The tail of `process_line` (lines 962-1051): conditionals,
suppression inside untaken branches, inline `<% %>` blocks, `${...}`
substitution, and the `##` comment check on the substituted line. -/
def emitLine (cats : Catalogs) (args : List String) (rst : RState) (line : String) :
    String × RState :=
  let r := codeLoop cats args (line.data.length + 100) rst.es line.data
  let processed := substLoop r.2 (r.1.length + 100) r.1
  if leadMatch ['#', '#'] processed then ("", { rst with es := r.2 })
  else (String.mk processed ++ "\n", { rst with es := r.2 })

def processLine4 (cats : Catalogs) (args : List String) (rst : RState) (line : String) :
    String × RState :=
  match parseIf line with
  | some cond =>
    ("", { rst with ifStack :=
      { conditionMet := evaluate_condition rst.es cond, inElse := false } :: rst.ifStack })
  | none =>
    match parseElif line, rst.ifStack with
    | some cond, s :: stackRest =>
      if !s.conditionMet then
        ("", { rst with ifStack :=
          { conditionMet := evaluate_condition rst.es cond, inElse := false } :: stackRest })
      else
        ("", { rst with ifStack := { s with inElse := true } :: stackRest })
    | _, _ =>
      if isElse line ∧ !rst.ifStack.isEmpty then
        match rst.ifStack with
        | s :: stackRest =>
          if !s.conditionMet then
            ("", { rst with ifStack := { conditionMet := true, inElse := false } :: stackRest })
          else
            ("", { rst with ifStack := { s with inElse := true } :: stackRest })
        | [] => ("", rst)
      else if isEndif line ∧ !rst.ifStack.isEmpty then
        ("", { rst with ifStack := rst.ifStack.tail })
      else
        match rst.ifStack with
        | s :: _ =>
          if !s.conditionMet || s.inElse then ("", rst)
          else emitLine cats args rst line
        | [] => emitLine cats args rst line

mutual

/-- `TemplateEngine::render` (lines 762-1059): banner plus the line
pass.  Returns the output and the engine's final mutable state. -/
def render (fuel : Nat) (cats : Catalogs) (args : List String) (tmpl : String)
    (es : EngineState) : String × EngineState :=
  let r := renderLines fuel cats args ⟨es, [], [], false, ""⟩ (splitLines tmpl)
  (bannerStr ++ r.1, r.2.es)
termination_by (fuel, 5, 0)

def renderLines (fuel : Nat) (cats : Catalogs) (args : List String) (rst : RState) :
    List String → String × RState
  | [] => ("", rst)
  | l :: ls =>
    let r1 := processLine fuel cats args rst l
    let r2 := renderLines fuel cats args r1.2 ls
    (r1.1 ++ r2.1, r2.2)
termination_by lines => (fuel, 4, lines.length)

/-- One template line: multi-line `<% %>` block handling first
(lines 797-826), then the loop machinery, then `processLine4`. -/
def processLine (fuel : Nat) (cats : Catalogs) (args : List String) (rst : RState)
    (line : String) : String × RState :=
  if rst.inBlock then
    match substrFind ['%', '>'] line.data with
    | some p =>
      let content := rst.blockContent ++ String.mk (line.data.take p)
      let r := execute_code_block cats args rst.es content
      (r.1, { rst with es := r.2, inBlock := false, blockContent := "" })
    | none =>
      ("", { rst with blockContent := rst.blockContent ++ line ++ "\n" })
  else
    match substrFind ['<', '%'] line.data with
    | some bs =>
      if (substrFind ['%', '>'] (line.data.drop (bs + 2))).isNone then
        (String.mk (line.data.take bs),
         { rst with inBlock := true,
                    blockContent := String.mk (line.data.drop (bs + 2)) ++ "\n" })
      else processLine2 fuel cats args rst line
    | none => processLine2 fuel cats args rst line
termination_by (fuel, 3, 2)

/-- Loop openers (lines 838-874), recognized only when no enclosing loop
is being collected. -/
def processLine2 (fuel : Nat) (cats : Catalogs) (args : List String) (rst : RState)
    (line : String) : String × RState :=
  if (match rst.loopStack with
      | [] => true
      | s :: _ => !s.collecting) then
    match parseForEnum line with
    | some (iv, v, coll) =>
      ("", { rst with loopStack :=
        { indexVarName := iv, varName := v, collection := coll,
          collecting := true, isEnum := true, depth := 1 } :: rst.loopStack })
    | none =>
      match parseForTuple line with
      | some (iv, v, coll) =>
        ("", { rst with loopStack :=
          { indexVarName := iv, varName := v, collection := coll,
            collecting := true, isEnum := false, depth := 1 } :: rst.loopStack })
      | none =>
        match parseFor line with
        | some (v, coll) =>
          ("", { rst with loopStack :=
            { varName := v, collection := coll,
              collecting := true, depth := 1 } :: rst.loopStack })
        | none => processLine3 fuel cats args rst line
  else processLine3 fuel cats args rst line
termination_by (fuel, 3, 1)

/-- `endfor` handling and body collection (lines 877-959). -/
def processLine3 (fuel : Nat) (cats : Catalogs) (args : List String) (rst : RState)
    (line : String) : String × RState :=
  if isEndfor line then
    match rst.loopStack with
    | s :: stackRest =>
      let d := s.depth - 1
      if d = 0 then
        let r := execLoop fuel cats args rst.es s
        (r.1, { rst with es := r.2, loopStack := stackRest })
      else collectStep rst { s with depth := d } stackRest line
    | [] => processLine4 cats args rst line
  else
    match rst.loopStack with
    | s :: stackRest =>
      if s.collecting then collectStep rst s stackRest line
      else processLine4 cats args rst line
    | [] => processLine4 cats args rst line
termination_by (fuel, 3, 0)

/-- The loop-execution dispatch on the closed set of collections
(lines 886-932), clearing the selection afterwards. -/
def execLoop (fuel : Nat) (cats : Catalogs) (args : List String) (es : EngineState)
    (s : LoopState) : String × EngineState :=
  if s.collection = "kernels" then
    let r := runIters fuel cats args s.body es
      (cats.kernels.enum.map (fun p => fun (st : EngineState) =>
        if s.isEnum then { st with kern := some p.2, enumIndex := Int.ofNat p.1 }
        else { st with kern := some p.2 }))
    (r.1, { r.2 with kern := none, enumIndex := -1 })
  else if s.collection = "archs" then
    let r := runIters fuel cats args s.body es
      (cats.archs.enum.map (fun p => fun (st : EngineState) =>
        if s.isEnum then { st with arch := some p.2, enumIndex := Int.ofNat p.1 }
        else { st with arch := some p.2 }))
    (r.1, { r.2 with arch := none, enumIndex := -1 })
  else if s.collection = "machines" then
    let r := runIters fuel cats args s.body es
      (cats.machines.map (fun m => fun (st : EngineState) => { st with machine := some m }))
    (r.1, { r.2 with machine := none })
  else if s.collection = "this_machine.archs" ∧ es.machine.isSome then
    match es.machine with
    | some M =>
      let r := runIters fuel cats args s.body es
        (M.archs.map (fun a => fun (st : EngineState) => { st with arch := some a }))
      (r.1, { r.2 with arch := none })
    | none => ("", es)
  else if s.collection = "kern.args" ∧ es.kern.isSome then
    match es.kern with
    | some K =>
      let r := runIters fuel cats args s.body es
        ((List.range K.args.length).map (fun i => fun (st : EngineState) =>
          { st with argIndex := Int.ofNat i }))
      (r.1, { r.2 with argIndex := -1 })
    | none => ("", es)
  else if s.collection = "arch.checks" ∧ es.arch.isSome then
    match es.arch with
    | some A =>
      let r := runIters fuel cats args s.body es
        ((List.range A.checks.length).map (fun i => fun (st : EngineState) =>
          { st with checkIndex := Int.ofNat i }))
      (r.1, { r.2 with checkIndex := -1 })
    | none => ("", es)
  else ("", es)
termination_by (fuel, 2, 0)

/-- One loop iteration per element: set the selection, render the body
through a nested engine, thread the copied-back state. -/
def runIters (fuel : Nat) (cats : Catalogs) (args : List String) (body : String)
    (es : EngineState) : List (EngineState → EngineState) → String × EngineState
  | [] => ("", es)
  | u :: us =>
    let r := renderBlock fuel cats args body (u es)
    let r2 := runIters fuel cats args body r.2 us
    (r.1 ++ r2.1, r2.2)
termination_by ups => (fuel, 1, ups.length)

/-- `TemplateEngine::render_block` (lines 1062-1096): depth check, a
nested engine inheriting the state, copy-back of the paren scratch and
implementation list, and removal of the nested banner. -/
def renderBlock (fuel : Nat) (cats : Catalogs) (args : List String) (body : String)
    (st : EngineState) : String × EngineState :=
  match fuel with
  | 0 => ("", st)
  | f + 1 =>
    let r := render f cats args body { st with currentImpls := [] }
    let stBack := { st with numOpenParens := r.2.numOpenParens,
                            endOpenParens := r.2.endOpenParens,
                            currentImpls := r.2.currentImpls }
    let out := if leadMatch bannerStr.data r.1.data
               then String.mk (r.1.data.drop bannerStr.data.length) else r.1
    (out, stBack)
termination_by (fuel, 0, 0)

end

/-- A fresh engine rendering one template, as `main`'s `render` mode
does: default state, depth 0 (fuel 20 = `max_render_depth_`). -/
def renderTop (cats : Catalogs) (args : List String) (tmpl : String) : String :=
  (render 20 cats args tmpl {}).1

/-! ## Rendering the claimed templates

Symbolic evaluations of `render` used to settle the template-level
claims: the enumerate/if template of C1, unresolved `${...}`
substitution (C6), render determinism (C7), and loops over
unrecognized collections (C10). -/


theorem evalCond_i_eq0 (st : EngineState) : evaluate_condition st "i == 0" = false := by
  rw [evaluate_condition.eq_def]
  rfl


def c1Body : String := "%if i == 0:\nFIRST\n%else:\nOTHER\n%endif\n"

theorem pl4_c1_if (cats : Catalogs) (args : List String) (es : EngineState) :
    processLine4 cats args ⟨es, [], [], false, ""⟩ "%if i == 0:"
      = ("", ⟨es, [], [⟨false, false⟩], false, ""⟩) := by
  unfold processLine4
  rw [show parseIf "%if i == 0:" = some "i == 0" from rfl]
  simp only [evalCond_i_eq0]

theorem c1_b1 (f : Nat) (cats : Catalogs) (args : List String) (es : EngineState) :
    processLine f cats args ⟨es, [], [], false, ""⟩ "%if i == 0:"
      = ("", ⟨es, [], [⟨false, false⟩], false, ""⟩) := by
  rw [processLine.eq_def, processLine2.eq_def, processLine3.eq_def, pl4_c1_if]
  rfl

theorem c1_b2 (f : Nat) (cats : Catalogs) (args : List String) (es : EngineState) :
    processLine f cats args ⟨es, [], [⟨false, false⟩], false, ""⟩ "FIRST"
      = ("", ⟨es, [], [⟨false, false⟩], false, ""⟩) := by
  rw [processLine.eq_def, processLine2.eq_def, processLine3.eq_def]
  rfl

theorem c1_b3 (f : Nat) (cats : Catalogs) (args : List String) (es : EngineState) :
    processLine f cats args ⟨es, [], [⟨false, false⟩], false, ""⟩ "%else:"
      = ("", ⟨es, [], [⟨true, false⟩], false, ""⟩) := by
  rw [processLine.eq_def, processLine2.eq_def, processLine3.eq_def]
  rfl

theorem c1_b4 (f : Nat) (cats : Catalogs) (args : List String) (es : EngineState) :
    processLine f cats args ⟨es, [], [⟨true, false⟩], false, ""⟩ "OTHER"
      = ("OTHER\n", ⟨es, [], [⟨true, false⟩], false, ""⟩) := by
  rw [processLine.eq_def, processLine2.eq_def, processLine3.eq_def]
  rfl

theorem c1_b5 (f : Nat) (cats : Catalogs) (args : List String) (es : EngineState) :
    processLine f cats args ⟨es, [], [⟨true, false⟩], false, ""⟩ "%endif"
      = ("", ⟨es, [], [], false, ""⟩) := by
  rw [processLine.eq_def, processLine2.eq_def, processLine3.eq_def]
  rfl

theorem renderLines_nil (f : Nat) (cats : Catalogs) (args : List String) (rst : RState) :
    renderLines f cats args rst [] = ("", rst) := by
  rw [renderLines.eq_def]

theorem renderLines_cons (f : Nat) (cats : Catalogs) (args : List String) (rst : RState)
    (l : String) (ls : List String) :
    renderLines f cats args rst (l :: ls) =
      ((processLine f cats args rst l).1
         ++ (renderLines f cats args (processLine f cats args rst l).2 ls).1,
       (renderLines f cats args (processLine f cats args rst l).2 ls).2) := by
  rw [renderLines.eq_def]

theorem c1_body_render (f : Nat) (cats : Catalogs) (args : List String) (es : EngineState) :
    render f cats args c1Body es = (bannerStr ++ "OTHER\n", es) := by
  rw [render.eq_def,
      show splitLines c1Body = ["%if i == 0:", "FIRST", "%else:", "OTHER", "%endif"] from rfl]
  simp only [renderLines_cons, renderLines_nil, c1_b1, c1_b2, c1_b3, c1_b4, c1_b5]
  rfl


def repStr (s : String) : Nat → String
  | 0 => ""
  | n + 1 => s ++ repStr s n

theorem c1_runIters (f : Nat) (cats : Catalogs) (args : List String) :
    ∀ (ms : List Machine) (mm : Option Machine),
      runIters (f + 1) cats args c1Body { machine := mm }
        (ms.map (fun m => fun st => { st with machine := some m }))
      = (repStr "OTHER\n" ms.length,
         { machine := ms.foldl (fun _ m => some m) mm })
  | [], mm => by
    rw [runIters.eq_def]
    rfl
  | m :: ms, mm => by
    rw [runIters.eq_def]
    dsimp only [List.map]
    rw [renderBlock.eq_def]
    dsimp only
    rw [c1_body_render]
    rw [c1_runIters f cats args ms (some m)]
    rfl

theorem c1_execLoop (f : Nat) (cats : Catalogs) (args : List String) :
    execLoop (f + 1) cats args {}
      { varName := "m", indexVarName := "i", collection := "machines",
        body := c1Body, collecting := true, isEnum := true, depth := 1 }
      = (repStr "OTHER\n" cats.machines.length, {}) := by
  rw [execLoop.eq_def]
  rw [if_neg (by decide), if_neg (by decide), if_pos (by decide)]
  rw [show ({} : EngineState) = { machine := none } from rfl]
  rw [c1_runIters f cats args cats.machines none]


def c1LS (b : String) : LoopState :=
  { varName := "m", indexVarName := "i", collection := "machines",
    body := b, collecting := true, isEnum := true, depth := 1 }

theorem c1_t1 (f : Nat) (cats : Catalogs) (args : List String) :
    processLine f cats args ⟨{}, [], [], false, ""⟩ "%for i, m in enumerate(machines):"
      = ("", ⟨{}, [c1LS ""], [], false, ""⟩) := by
  rw [processLine.eq_def, processLine2.eq_def]
  rfl

theorem processLine_collect (f : Nat) (cats : Catalogs) (args : List String)
    (es : EngineState) (ls : List LoopState) (ifs : List IfState) (bc : String)
    (s : LoopState) (line : String)
    (hb : substrFind ['<', '%'] line.data = none)
    (hcoll : s.collecting = true)
    (hfor : countsAsFor line = false)
    (hend : isEndfor line = false) :
    processLine f cats args ⟨es, s :: ls, ifs, false, bc⟩ line
      = ("", ⟨es, { s with body := s.body ++ line ++ "\n" } :: ls, ifs, false, bc⟩) := by
  have hsplit : (parseFor line).isSome = false ∧ (parseForEnum line).isSome = false ∧
      (parseForTuple line).isSome = false := by
    have := hfor
    unfold countsAsFor at this
    simp only [Bool.or_eq_false_iff] at this
    exact ⟨this.1.1, this.1.2, this.2⟩
  have he : parseForEnum line = none := by
    cases h : parseForEnum line
    · rfl
    · rw [h] at hsplit; simp at hsplit
  have ht : parseForTuple line = none := by
    cases h : parseForTuple line
    · rfl
    · rw [h] at hsplit; simp at hsplit
  have hf : parseFor line = none := by
    cases h : parseFor line
    · rfl
    · rw [h] at hsplit; simp at hsplit
  rw [processLine.eq_def]
  simp only [hb]
  rw [processLine2.eq_def]
  simp only [hcoll, Bool.not_true, Bool.false_eq_true, if_false]
  rw [processLine3.eq_def]
  simp only [hend, hcoll, Bool.false_eq_true, if_false, if_true, collectStep, countsAsFor,
    hf, he, ht, Option.isSome_none, Bool.or_self, Bool.not_false, Option.isSome]


theorem c1_t2 (f : Nat) (cats : Catalogs) (args : List String) :
    processLine f cats args ⟨{}, [c1LS ""], [], false, ""⟩ "%if i == 0:"
      = ("", ⟨{}, [c1LS "%if i == 0:\n"], [], false, ""⟩) :=
  processLine_collect f cats args {} [] [] "" (c1LS "") "%if i == 0:" rfl rfl rfl rfl

theorem c1_t3 (f : Nat) (cats : Catalogs) (args : List String) :
    processLine f cats args ⟨{}, [c1LS "%if i == 0:\n"], [], false, ""⟩ "FIRST"
      = ("", ⟨{}, [c1LS "%if i == 0:\nFIRST\n"], [], false, ""⟩) :=
  processLine_collect f cats args {} [] [] "" (c1LS "%if i == 0:\n") "FIRST" rfl rfl rfl rfl

theorem c1_t4 (f : Nat) (cats : Catalogs) (args : List String) :
    processLine f cats args ⟨{}, [c1LS "%if i == 0:\nFIRST\n"], [], false, ""⟩ "%else:"
      = ("", ⟨{}, [c1LS "%if i == 0:\nFIRST\n%else:\n"], [], false, ""⟩) :=
  processLine_collect f cats args {} [] [] "" (c1LS "%if i == 0:\nFIRST\n") "%else:" rfl rfl rfl rfl

theorem c1_t5 (f : Nat) (cats : Catalogs) (args : List String) :
    processLine f cats args ⟨{}, [c1LS "%if i == 0:\nFIRST\n%else:\n"], [], false, ""⟩ "OTHER"
      = ("", ⟨{}, [c1LS "%if i == 0:\nFIRST\n%else:\nOTHER\n"], [], false, ""⟩) :=
  processLine_collect f cats args {} [] [] "" (c1LS "%if i == 0:\nFIRST\n%else:\n") "OTHER" rfl rfl rfl rfl

theorem c1_t6 (f : Nat) (cats : Catalogs) (args : List String) :
    processLine f cats args ⟨{}, [c1LS "%if i == 0:\nFIRST\n%else:\nOTHER\n"], [], false, ""⟩ "%endif"
      = ("", ⟨{}, [c1LS c1Body], [], false, ""⟩) :=
  processLine_collect f cats args {} [] [] "" (c1LS "%if i == 0:\nFIRST\n%else:\nOTHER\n") "%endif" rfl rfl rfl rfl

theorem c1_t7 (f : Nat) (cats : Catalogs) (args : List String) :
    processLine (f + 1) cats args ⟨{}, [c1LS c1Body], [], false, ""⟩ "%endfor"
      = (repStr "OTHER\n" cats.machines.length, ⟨{}, [], [], false, ""⟩) := by
  rw [processLine.eq_def]
  simp only [show substrFind ['<', '%'] "%endfor".data = none from rfl]
  rw [processLine2.eq_def]
  simp only [c1LS, Bool.not_true, Bool.false_eq_true, if_false]
  rw [processLine3.eq_def]
  simp only [show isEndfor "%endfor" = true from rfl, if_true]
  have he := c1_execLoop f cats args
  simp only [c1LS] at he
  simp only [he]


theorem string_empty_append (s : String) : "" ++ s = s := rfl

theorem string_append_empty (s : String) : s ++ "" = s := by
  cases s with
  | mk d =>
    show String.mk (d ++ []) = String.mk d
    rw [List.append_nil]

def c1Template : String :=
  "%for i, m in enumerate(machines):\n%if i == 0:\nFIRST\n%else:\nOTHER\n%endif\n%endfor"

theorem c1_render_eq (cats : Catalogs) (args : List String) :
    renderTop cats args c1Template = bannerStr ++ repStr "OTHER\n" cats.machines.length := by
  unfold renderTop
  rw [show (20 : Nat) = 19 + 1 from rfl]
  rw [render.eq_def,
      show splitLines c1Template = ["%for i, m in enumerate(machines):", "%if i == 0:",
        "FIRST", "%else:", "OTHER", "%endif", "%endfor"] from rfl]
  simp only [renderLines_cons, renderLines_nil, c1_t1, c1_t2, c1_t3, c1_t4, c1_t5, c1_t6, c1_t7]
  simp only [string_empty_append, string_append_empty]


theorem execLoop_unrec (f : Nat) (cats : Catalogs) (args : List String)
    (es : EngineState) (s : LoopState)
    (hun : (s.collection ≠ "kernels" ∧ s.collection ≠ "archs" ∧ s.collection ≠ "machines"
             ∧ s.collection ≠ "this_machine.archs" ∧ s.collection ≠ "kern.args"
             ∧ s.collection ≠ "arch.checks")
         ∨ (s.collection = "this_machine.archs" ∧ es.machine = none)
         ∨ (s.collection = "kern.args" ∧ es.kern = none)
         ∨ (s.collection = "arch.checks" ∧ es.arch = none)) :
    execLoop f cats args es s = ("", es) := by
  rw [execLoop.eq_def]
  rcases hun with ⟨h1, h2, h3, h4, h5, h6⟩ | ⟨hc, hm⟩ | ⟨hc, hk⟩ | ⟨hc, ha⟩
  · rw [if_neg h1, if_neg h2, if_neg h3,
        if_neg (fun h => h4 h.1), if_neg (fun h => h5 h.1), if_neg (fun h => h6 h.1)]
  · rw [if_neg (by rw [hc]; decide), if_neg (by rw [hc]; decide), if_neg (by rw [hc]; decide),
        if_neg (by rw [hm]; exact fun h => by simpa using h.2),
        if_neg (by rw [hc]; exact fun h => by simpa using h.1),
        if_neg (by rw [hc]; exact fun h => by simpa using h.1)]
  · rw [if_neg (by rw [hc]; decide), if_neg (by rw [hc]; decide), if_neg (by rw [hc]; decide),
        if_neg (by rw [hc]; exact fun h => by simpa using h.1),
        if_neg (by rw [hk]; exact fun h => by simpa using h.2),
        if_neg (by rw [hc]; exact fun h => by simpa using h.1)]
  · rw [if_neg (by rw [hc]; decide), if_neg (by rw [hc]; decide), if_neg (by rw [hc]; decide),
        if_neg (by rw [hc]; exact fun h => by simpa using h.1),
        if_neg (by rw [hc]; exact fun h => by simpa using h.1),
        if_neg (by rw [ha]; exact fun h => by simpa using h.2)]

theorem processLine_for_open (f : Nat) (cats : Catalogs) (args : List String)
    (es : EngineState) (L1 : String) (V C : String)
    (hblk : substrFind ['<', '%'] L1.data = none)
    (he : parseForEnum L1 = none) (ht : parseForTuple L1 = none)
    (hf : parseFor L1 = some (V, C)) :
    processLine f cats args ⟨es, [], [], false, ""⟩ L1
      = ("", ⟨es, [{ varName := V, collection := C, collecting := true, depth := 1 }],
              [], false, ""⟩) := by
  rw [processLine.eq_def]
  simp only [hblk, Bool.false_eq_true, if_false]
  rw [processLine2.eq_def]
  simp only [he, ht, hf, if_true]

theorem processLine_endfor_unrec (f : Nat) (cats : Catalogs) (args : List String)
    (es : EngineState) (s : LoopState) (hd : s.depth = 1)
    (hun : (s.collection ≠ "kernels" ∧ s.collection ≠ "archs" ∧ s.collection ≠ "machines"
             ∧ s.collection ≠ "this_machine.archs" ∧ s.collection ≠ "kern.args"
             ∧ s.collection ≠ "arch.checks")
         ∨ (s.collection = "this_machine.archs" ∧ es.machine = none)
         ∨ (s.collection = "kern.args" ∧ es.kern = none)
         ∨ (s.collection = "arch.checks" ∧ es.arch = none)) :
    processLine f cats args ⟨es, [s], [], false, ""⟩ "%endfor"
      = ("", ⟨es, [], [], false, ""⟩) := by
  rw [processLine.eq_def]
  simp only [show substrFind ['<', '%'] "%endfor".data = none from rfl,
    Bool.false_eq_true, if_false]
  rw [processLine2.eq_def]
  simp only [show parseForEnum "%endfor" = none from rfl,
    show parseForTuple "%endfor" = none from rfl,
    show parseFor "%endfor" = none from rfl, ite_self]
  rw [processLine3.eq_def]
  simp only [show isEndfor "%endfor" = true from rfl, if_true, hd]
  rw [execLoop_unrec f cats args es s hun]

theorem collect_lines (f : Nat) (cats : Catalogs) (args : List String)
    (es : EngineState) (ifs : List IfState) :
    ∀ (lines rest : List String) (s : LoopState), s.collecting = true →
      (∀ l ∈ lines, substrFind ['<', '%'] l.data = none ∧ countsAsFor l = false
        ∧ isEndfor l = false) →
      renderLines f cats args ⟨es, [s], ifs, false, ""⟩ (lines ++ rest)
        = renderLines f cats args
            ⟨es, [lines.foldl (fun acc l => { acc with body := acc.body ++ l ++ "\n" }) s],
             ifs, false, ""⟩ rest
  | [], rest, s, _, _ => rfl
  | l :: ls, rest, s, hcoll, hlines => by
    have hl := hlines l (List.mem_cons_self l ls)
    rw [List.cons_append, renderLines_cons,
        processLine_collect f cats args es [] ifs "" s l hl.1 hcoll hl.2.1 hl.2.2]
    rw [collect_lines f cats args es ifs ls rest _ (by simpa using hcoll)
        (fun x hx => hlines x (List.mem_cons_of_mem l hx))]
    simp only [List.foldl_cons, string_empty_append]


theorem foldl_body_fields :
    ∀ (lines : List String) (s : LoopState),
      (lines.foldl (fun acc l => { acc with body := acc.body ++ l ++ "\n" }) s).collection
          = s.collection
        ∧ (lines.foldl (fun acc l => { acc with body := acc.body ++ l ++ "\n" }) s).depth
          = s.depth
  | [], s => ⟨rfl, rfl⟩
  | l :: ls, s => by
    rw [List.foldl_cons]
    exact foldl_body_fields ls _

/-- C10: a `%for V in C:` ... `%endfor` loop whose collection `C` is
outside the recognized set, or names `this_machine.archs`, `kern.args`
or `arch.checks` while the corresponding selection is absent,
contributes exactly the empty string: the rendered output is the banner
alone (the buffered body is executed zero times and never echoed) and
the engine state is returned unchanged. -/
theorem unrecognized_loop_contributes_empty (f : Nat) (cats : Catalogs) (args : List String) (es : EngineState)
    (L1 V C : String) (bodyLines : List String) (tmpl : String)
    (hsplit : splitLines tmpl = L1 :: (bodyLines ++ ["%endfor"]))
    (hblk : substrFind ['<', '%'] L1.data = none)
    (he : parseForEnum L1 = none) (ht : parseForTuple L1 = none)
    (hf : parseFor L1 = some (V, C))
    (hbody : ∀ l ∈ bodyLines, substrFind ['<', '%'] l.data = none ∧ countsAsFor l = false
        ∧ isEndfor l = false)
    (hun : (C ≠ "kernels" ∧ C ≠ "archs" ∧ C ≠ "machines" ∧ C ≠ "this_machine.archs"
             ∧ C ≠ "kern.args" ∧ C ≠ "arch.checks")
         ∨ (C = "this_machine.archs" ∧ es.machine = none)
         ∨ (C = "kern.args" ∧ es.kern = none)
         ∨ (C = "arch.checks" ∧ es.arch = none)) :
    render f cats args tmpl es = (bannerStr, es) := by
  have hfold := foldl_body_fields bodyLines
      { varName := V, collection := C, collecting := true, depth := 1 }
  rw [render.eq_def, hsplit, renderLines_cons,
      processLine_for_open f cats args es L1 V C hblk he ht hf,
      collect_lines f cats args es [] bodyLines ["%endfor"]
        { varName := V, collection := C, collecting := true, depth := 1 } rfl hbody,
      renderLines_cons,
      processLine_endfor_unrec f cats args es _ (by rw [hfold.2])
        (by rw [hfold.1]; exact hun),
      renderLines_nil]
  rfl


theorem takeWhile_append_of_all {α} (p : α → Bool) :
    ∀ (l r : List α), (∀ x ∈ l, p x = true) →
      (l ++ r).takeWhile p = l ++ r.takeWhile p
  | [], _, _ => rfl
  | a :: l, r, h => by
    rw [List.cons_append, List.takeWhile_cons, if_pos (h a (List.mem_cons_self a l)),
        takeWhile_append_of_all p l r (fun x hx => h x (List.mem_cons_of_mem a hx))]
    rfl

theorem dropWhile_append_of_all {α} (p : α → Bool) :
    ∀ (l r : List α), (∀ x ∈ l, p x = true) →
      (l ++ r).dropWhile p = r.dropWhile p
  | [], _, _ => rfl
  | a :: l, r, h => by
    rw [List.cons_append, List.dropWhile_cons, if_pos (h a (List.mem_cons_self a l)),
        dropWhile_append_of_all p l r (fun x hx => h x (List.mem_cons_of_mem a hx))]

theorem findVar_none : ∀ (l : List Char), '$' ∉ l → findVar l = none
  | [], _ => rfl
  | c :: rest, h => by
    rw [findVar.eq_def]
    dsimp only
    rw [if_neg (fun hc : c = '$' => h (by rw [hc]; exact List.mem_cons_self _ _)),
        findVar_none rest (fun hm => h (List.mem_cons_of_mem _ hm))]
    rfl

theorem findVar_extend : ∀ (pre rest : List Char), '$' ∉ pre →
    findVar (pre ++ rest) = (findVar rest).map (fun r => (pre ++ r.1, r.2.1, r.2.2))
  | [], rest, _ => by
    cases hr : findVar rest <;> simp [hr]
  | c :: pre, rest, h => by
    rw [List.cons_append, findVar.eq_def]
    dsimp only
    rw [if_neg (fun hc : c = '$' => h (by rw [hc]; exact List.mem_cons_self _ _)),
        findVar_extend pre rest (fun hm => h (List.mem_cons_of_mem _ hm))]
    cases hr : findVar rest <;> simp

theorem isEmpty_eq_false_of_ne_nil {α} {l : List α} (h : l ≠ []) : l.isEmpty = false := by
  cases l with
  | nil => exact absurd rfl h
  | cons a t => rfl

theorem findVar_hit (e after : List Char) (he : e ≠ []) (hb : rbrace ∉ e) :
    findVar ('$' :: lbrace :: (e ++ rbrace :: after)) = some ([], e, after) := by
  have hall : ∀ x ∈ e, (!(x = rbrace) : Bool) = true := by
    intro x hx
    simp only [Bool.not_eq_true', decide_eq_false_iff_not]
    exact fun hxx => hb (hxx ▸ hx)
  rw [findVar.eq_def]
  dsimp only
  rw [if_pos rfl, if_pos rfl,
      takeWhile_append_of_all _ e _ hall, dropWhile_append_of_all _ e _ hall,
      List.takeWhile_cons, List.dropWhile_cons]
  simp [isEmpty_eq_false_of_ne_nil he]

theorem findVar_full (p e after : List Char) (hp : '$' ∉ p) (he : e ≠ [])
    (hb : rbrace ∉ e) :
    findVar (p ++ '$' :: lbrace :: (e ++ rbrace :: after)) = some (p, e, after) := by
  rw [findVar_extend p _ hp, findVar_hit e after he hb]
  simp

theorem substLoop_none (st : EngineState) (f : Nat) (l : List Char)
    (h : findVar l = none) : substLoop st f l = l := by
  cases f with
  | zero => rfl
  | succ n =>
    unfold substLoop
    rw [h]

theorem substLoop_step (st : EngineState) (f : Nat) (l pre e suf : List Char)
    (h : findVar l = some (pre, e, suf)) :
    substLoop st (f + 1) l
      = substLoop st f (pre ++ (evaluate_expression st (String.mk e)).data ++ suf) := by
  conv_lhs => unfold substLoop
  rw [h]

theorem unknown_expr_empty (st : EngineState) (e1 : String)
    (h1 : st.vars.lookup (trimStr e1) = none)
    (h2 : trimStr e1 ≠ "end_open_parens")
    (h3 : st.kern.bind (fun K => kernField K (trimStr e1)) = none)
    (h4 : st.arch.bind (fun A => archField A (trimStr e1)) = none)
    (h5 : st.machine.bind (fun M => machineField M (trimStr e1)) = none)
    (h6 : argField st (trimStr e1) = none)
    (h7 : checkField st (trimStr e1) = none)
    (h8 : ¬(trimStr e1 = "i" ∧ 0 ≤ st.enumIndex))
    (h9 : ¬(trimStr e1 = "len_archs" ∧ 0 < st.lenArchs)) :
    evaluate_expression st e1 = "" := by
  unfold evaluate_expression
  dsimp only
  rw [h1, if_neg h2, h3, h4, h5, h6, h7, if_neg h8, if_neg h9]


/-- C6: a `${EXPR}` occurrence whose (trimmed) expression matches no
caller-set variable and none of the current-selection fields evaluates
to the empty string (no error value exists anywhere in the engine), and
the remaining `${...}` substitutions on the same line are still
performed: a line `p${e1}m${e2}s` with `e1` unknown renders as
`p m value(e2) s`. -/
theorem unresolved_expression_empty_substitution (st : EngineState) (p m s v2d : List Char) (e1 e2 : String)
    (h1 : st.vars.lookup (trimStr e1) = none)
    (h2 : trimStr e1 ≠ "end_open_parens")
    (h3 : st.kern.bind (fun K => kernField K (trimStr e1)) = none)
    (h4 : st.arch.bind (fun A => archField A (trimStr e1)) = none)
    (h5 : st.machine.bind (fun M => machineField M (trimStr e1)) = none)
    (h6 : argField st (trimStr e1) = none)
    (h7 : checkField st (trimStr e1) = none)
    (h8 : ¬(trimStr e1 = "i" ∧ 0 ≤ st.enumIndex))
    (h9 : ¬(trimStr e1 = "len_archs" ∧ 0 < st.lenArchs))
    (hp : '$' ∉ p) (hm2 : '$' ∉ m) (hs : '$' ∉ s)
    (he1 : e1.data ≠ []) (hb1 : rbrace ∉ e1.data)
    (he2 : e2.data ≠ []) (hb2 : rbrace ∉ e2.data)
    (hv2 : (evaluate_expression st e2).data = v2d) (hv2d : '$' ∉ v2d) :
    evaluate_expression st e1 = "" ∧
    substVars st (String.mk (p ++ '$' :: lbrace ::
        (e1.data ++ rbrace :: (m ++ '$' :: lbrace :: (e2.data ++ rbrace :: s)))))
      = String.mk (p ++ (m ++ (v2d ++ s))) := by
  have hemp : evaluate_expression st e1 = "" :=
    unknown_expr_empty st e1 h1 h2 h3 h4 h5 h6 h7 h8 h9
  refine ⟨hemp, ?_⟩
  unfold substVars
  dsimp only
  rw [show (p ++ '$' :: lbrace ::
        (e1.data ++ rbrace :: (m ++ '$' :: lbrace :: (e2.data ++ rbrace :: s)))).length + 100
      = (p ++ '$' :: lbrace ::
          (e1.data ++ rbrace :: (m ++ '$' :: lbrace :: (e2.data ++ rbrace :: s)))).length
        + 97 + 1 + 1 + 1 from by omega]
  rw [substLoop_step st _ _ p e1.data _
      (findVar_full p e1.data (m ++ '$' :: lbrace :: (e2.data ++ rbrace :: s)) hp he1 hb1)]
  rw [show String.mk e1.data = e1 from rfl, hemp,
      show ("" : String).data = [] from rfl, List.append_nil]
  rw [show p ++ (m ++ '$' :: lbrace :: (e2.data ++ rbrace :: s))
      = p ++ m ++ '$' :: lbrace :: (e2.data ++ rbrace :: s) from
      (List.append_assoc p m _).symm]
  rw [substLoop_step st _ _ (p ++ m) e2.data s
      (findVar_full (p ++ m) e2.data s
        (fun hmem => (List.mem_append.mp hmem).elim hp hm2) he2 hb2)]
  rw [show String.mk e2.data = e2 from rfl, hv2]
  rw [substLoop_none st _ _
      (findVar_none _ (fun hmem => by
        rcases List.mem_append.mp hmem with hA | hsx
        · rcases List.mem_append.mp hA with hA2 | hvx
          · rcases List.mem_append.mp hA2 with h | h
            · exact hp h
            · exact hm2 h
          · exact hv2d hvx
        · exact hs hsx))]
  simp [List.append_assoc]


/-- Number of (possibly overlapping) occurrences of `needle` in a
character list: one count per start position where it matches. -/
def countOccur (needle : List Char) : List Char → Nat
  | [] => 0
  | c :: rest => (if leadMatch needle (c :: rest) then 1 else 0) + countOccur needle rest

/-- C1 (amended): rendering the enumerate/if template against any
machine catalog produces the banner followed by one `OTHER` line per
machine and no `FIRST` line at all: `evaluate_condition` supports no
`==` comparison, so `i == 0` is always false, and the `machines` loop
never sets the enumerate index in the first place. -/
theorem template_enumerate_machines_output (cats : Catalogs) (args : List String) :
    renderTop cats args c1Template = bannerStr ++ repStr "OTHER\n" cats.machines.length :=
  c1_render_eq cats args

/-- C1 counterexample: with a catalog of exactly one machine the output
contains zero `FIRST` lines (the claim demands exactly one) and one
`OTHER` line (the claim demands zero). -/
theorem template_enumerate_machines_first_missing :
    ({ machines := [{ name := "m" }] } : Catalogs).machines.length = 1
    ∧ countOccur "FIRST".data
        (renderTop { machines := [{ name := "m" }] } [] c1Template).data = 0
    ∧ countOccur "OTHER".data
        (renderTop { machines := [{ name := "m" }] } [] c1Template).data = 1
    ∧ countOccur bannerStr.data
        (renderTop { machines := [{ name := "m" }] } [] c1Template).data = 1 := by
  refine ⟨rfl, ?_, ?_, ?_⟩ <;> rw [c1_render_eq] <;> decide

/-- C7: rendering a template is a pure function of the catalog, the
positional arguments and the template text; rendering twice against an
unchanged catalog (a fresh engine each time, as `main` constructs one
per invocation) yields byte-identical output. -/
theorem render_deterministic (cats cats2 : Catalogs) (args : List String)
    (tmpl : String) (h : cats2 = cats) :
    renderTop cats2 args tmpl = renderTop cats args tmpl := by
  rw [h]

theorem render_deterministic_witness :
    renderTop {} [] "hello\n" = renderTop {} [] "hello\n" :=
  render_deterministic {} {} [] "hello\n" rfl



theorem unresolved_expression_empty_substitution_witness :
    evaluate_expression { vars := [("known", "VAL")] } "bogus" = "" ∧
    substVars { vars := [("known", "VAL")] }
        (String.mk ("A ".data ++ '$' :: lbrace ::
          ("bogus".data ++ rbrace :: (" B ".data ++ '$' :: lbrace ::
            ("known".data ++ rbrace :: " C".data)))))
      = String.mk ("A ".data ++ (" B ".data ++ ("VAL".data ++ " C".data))) :=
  unresolved_expression_empty_substitution { vars := [("known", "VAL")] }
    "A ".data " B ".data " C".data "VAL".data "bogus" "known"
    (by decide) (by decide) rfl rfl rfl rfl rfl (by decide) (by decide)
    (by decide) (by decide) (by decide)
    (by decide) (by decide) (by decide) (by decide)
    rfl (by decide)

theorem unrecognized_loop_contributes_empty_witness :
    render 20 {} [] "%for x in bogus:\nBODY line\n%endfor" {} = (bannerStr, {}) :=
  unrecognized_loop_contributes_empty 20 {} [] {} "%for x in bogus:" "x" "bogus"
    ["BODY line"] "%for x in bogus:\nBODY line\n%endfor"
    rfl rfl rfl rfl rfl
    (by decide)
    (Or.inl (by decide))

end VolkGen
